import Mathlib

/-!
# E20 simulator (`sim.cpp`): embedding and verified properties

The simulator's data (`Instruction`, `E20`) and functions (`extract_bits`,
`binary_to_int`, `parse_instruction`, `reinitialize`, `execute_instruction`,
`run`) are embedded as Lean definitions.

Conventions of the embedding:

* `unsigned short` values are natural numbers; every assignment that can leave
  the range `0 .. 65535` is reduced with `toU16`. `signed short` values are
  integers reduced with `toS16`. Arithmetic on promoted operands is done in
  `Int`, as C++ does it in `int`.
* The arrays `memory_arr` (`MEM_SIZE` cells) and `registers` (`NUM_REGS` cells)
  are maps from an index to a cell. An access with an index outside the array
  has undefined behaviour in C++; the embedding gives it no result (`none`).
* `run` is the `while (true)` loop; it is iterated with a fuel bound and its
  result says whether the loop left through `break`, hit an out-of-bounds
  access, or is still running when the fuel is used up.
-/

namespace E20Sim

/-! ## Constants -/

/-- Number of registers (`NUM_REGS`). -/
def NUM_REGS : Nat := 8

/-- Number of memory cells (`MEM_SIZE = 1<<13`). -/
def MEM_SIZE : Nat := 1 <<< 13

/-- Number of values of a register (`REG_SIZE = 1<<16`). -/
def REG_SIZE : Nat := 1 <<< 16

/-! ## Integer conversions -/

/-- Conversion of an `int` value to `unsigned short`: reduction modulo `2^16`. -/
def toU16 (x : Int) : Nat := (x % 65536).toNat

/-- Conversion of an `int` value to `signed short`: the representative of `x`
modulo `2^16` in `-32768 .. 32767`. -/
def toS16 (x : Int) : Int := (x + 32768) % 65536 - 32768

/-! ## Bit fields and sign extension -/

/-- The function `extract_bits`: shift right by `position`, then mask `num_bits` bits. -/
def extract_bits (curr_ins position num_bits : Nat) : Nat :=
  let shifted := curr_ins >>> position
  let mask := (1 <<< num_bits) - 1
  shifted &&& mask

/-- The function `binary_to_int`: two's-complement reading of a `bit_length`-bit
value, returned as a `signed short`. All call sites pass `bit_length = 7`. -/
def binary_to_int (val bit_length : Nat) : Int :=
  if val &&& (1 <<< (bit_length - 1)) ≠ 0 then
    toS16 ((val : Int) - ((1 <<< bit_length : Nat) : Int))
  else
    toS16 (val : Int)

/-! ## The class `Instruction` -/

/-- Data members of the class `Instruction`. -/
structure Instruction where
  opcode : Nat
  operands : Fin 4 → Nat
  isHalt : Bool

namespace Instruction

/-- The constructor `Instruction()`: opcode 0, all operands 0, not halt. -/
def init : Instruction := ⟨0, fun _ => 0, false⟩

/-- Assignment `operands[k] = v`. -/
def setOperand (self : Instruction) (k : Fin 4) (v : Nat) : Instruction :=
  { self with operands := fun j => if j = k then v else self.operands j }

/-- First statement of `parse_instruction`: `opcode = extract_bits(curr_instruction, 13, 3)`. -/
def parseOpcode (self : Instruction) (curr_instruction : Nat) : Instruction :=
  { self with opcode := extract_bits curr_instruction 13 3 }

/-- Block `if (opcode == 0b000)` of `parse_instruction`: 3 register arguments, 4 operands. -/
def parseThreeReg (self : Instruction) (curr_instruction : Nat) : Instruction :=
  if self.opcode = 0b000 then
    (((self.setOperand 0 (extract_bits curr_instruction 10 3)).setOperand 1
      (extract_bits curr_instruction 7 3)).setOperand 2
      (extract_bits curr_instruction 4 3)).setOperand 3
      (extract_bits curr_instruction 0 4)
  else self

/-- Second block of `parse_instruction`: 2 register arguments, 3 operands. Its condition
also lists the opcodes 010 and 011. -/
def parseTwoReg (self : Instruction) (curr_instruction : Nat) : Instruction :=
  if self.opcode = 0b111 ∨ self.opcode = 0b100 ∨ self.opcode = 0b101 ∨ self.opcode = 0b110
      ∨ self.opcode = 0b001 ∨ self.opcode = 0b010 ∨ self.opcode = 0b011 then
    ((self.setOperand 0 (extract_bits curr_instruction 10 3)).setOperand 1
      (extract_bits curr_instruction 7 3)).setOperand 2
      (extract_bits curr_instruction 0 7)
  else self

/-- Block `if (opcode == 0b010 || opcode == 0b011)` of `parse_instruction`: the 13-bit
immediate and the halt test `operands[0] == curr_pc`. -/
def parseJump (self : Instruction) (curr_instruction curr_pc : Nat) : Instruction :=
  if self.opcode = 0b010 ∨ self.opcode = 0b011 then
    let i := self.setOperand 0 (extract_bits curr_instruction 0 13)
    if i.operands 0 = curr_pc then { i with isHalt := true } else i
  else self

/-- The method `parse_instruction`, acting on the object `self`: the opcode
assignment followed by the three blocks in source order. -/
def parse_instruction (self : Instruction) (curr_instruction curr_pc : Nat) : Instruction :=
  (((self.parseOpcode curr_instruction).parseThreeReg curr_instruction).parseTwoReg
    curr_instruction).parseJump curr_instruction curr_pc

/-- The method `reinitialize`. Its last statement `bool isHalt = false;` declares
a local variable, so the member `isHalt` keeps its value. -/
def reinitialize (self : Instruction) : Instruction :=
  { self with opcode := 0, operands := fun _ => 0 }

end Instruction

/-! ## The class `E20` -/

/-- Data members of the class `E20`. -/
structure E20 where
  memory_arr : Nat → Nat
  registers : Nat → Nat
  instruction : Instruction
  pc : Nat

namespace E20

/-- The constructor `E20()`: memory, registers and pc all zero. -/
def init : E20 := ⟨fun _ => 0, fun _ => 0, Instruction.init, 0⟩

/-- Read of `registers[r]`; no result outside the array. -/
def readReg (s : E20) (r : Nat) : Option Nat :=
  if r < NUM_REGS then some (s.registers r) else none

/-- The state with cell `r` of `registers` replaced by `v`. -/
def setReg (s : E20) (r v : Nat) : E20 :=
  { s with registers := fun x => if x = r then v else s.registers x }

/-- Assignment `registers[r] = v`; no result outside the array. -/
def writeReg (s : E20) (r v : Nat) : Option E20 :=
  if r < NUM_REGS then some (s.setReg r v) else none

/-- Read of `memory_arr[a]`; no result outside the array. -/
def readMem (s : E20) (a : Nat) : Option Nat :=
  if a < MEM_SIZE then some (s.memory_arr a) else none

/-- The state with cell `a` of `memory_arr` replaced by `v`. -/
def setMem (s : E20) (a v : Nat) : E20 :=
  { s with memory_arr := fun x => if x = a then v else s.memory_arr x }

/-- Assignment `memory_arr[a] = v`; no result outside the array. -/
def writeMem (s : E20) (a v : Nat) : Option E20 :=
  if a < MEM_SIZE then some (s.setMem a v) else none

/-- The state with `pc` replaced by `v`. -/
def setPc (s : E20) (v : Nat) : E20 := { s with pc := v }

/-- The statement `pc++` on the `unsigned short` pc. -/
def incPc (s : E20) : E20 := s.setPc (toU16 ((s.pc : Int) + 1))

/-- Body shared by the add, sub, or, and, slt blocks of opcode 000: guarded write of
`f registers[regSrcA] registers[regSrcB]` to `registers[regDst]`, then `pc++`. -/
def aluBlock (s : E20) (regSrcA regSrcB regDst : Nat) (f : Nat → Nat → Nat) : Option E20 := do
  let s ←
    (if regDst ≠ 0b000 then
      (do
        let a ← s.readReg regSrcA
        let b ← s.readReg regSrcB
        s.writeReg regDst (f a b))
    else
      s.writeReg regDst 0)
  pure s.incPc

/-- Block `if (curr_instruction.opcode == 0b000)` of `execute_instruction`. -/
def exec000 (s : E20) (ci : Instruction) : Option E20 :=
  if ci.opcode = 0b000 then do
    let regSrcA := ci.operands 0
    let regSrcB := ci.operands 1
    let regDst := ci.operands 2
    let imm_val := ci.operands 3
    -- add
    let s ← (if imm_val = 0b0000 then
        s.aluBlock regSrcA regSrcB regDst (fun a b => toU16 ((a : Int) + (b : Int)))
      else pure s)
    -- sub
    let s ← (if imm_val = 0b0001 then
        s.aluBlock regSrcA regSrcB regDst (fun a b => toU16 ((a : Int) - (b : Int)))
      else pure s)
    -- or
    let s ← (if imm_val = 0b0010 then
        s.aluBlock regSrcA regSrcB regDst (fun a b => a ||| b)
      else pure s)
    -- and
    let s ← (if imm_val = 0b0011 then
        s.aluBlock regSrcA regSrcB regDst (fun a b => a &&& b)
      else pure s)
    -- slt
    let s ← (if imm_val = 0b0100 then
        s.aluBlock regSrcA regSrcB regDst (fun a b => if a < b then 1 else 0)
      else pure s)
    -- jr
    let s ← (if imm_val = 0b1000 then
        (do
          let a ← s.readReg regSrcA
          pure (s.setPc a))
      else pure s)
    pure s
  else pure s

/-- Block `if (curr_instruction.opcode == 0b111)` (slti). -/
def execSlti (s : E20) (ci : Instruction) : Option E20 :=
  if ci.opcode = 0b111 then do
    let regSrc := ci.operands 0
    let regDst := ci.operands 1
    let imm_val := ci.operands 2
    let signed_imm := binary_to_int imm_val 7
    let s ←
      (if regDst ≠ 0b000 then
        (do
          let a ← s.readReg regSrc
          if (a : Int) < signed_imm then s.writeReg regDst 1 else s.writeReg regDst 0)
      else
        s.writeReg regDst 0)
    pure s.incPc
  else pure s

/-- Block `if (curr_instruction.opcode == 0b100)` (lw). -/
def execLw (s : E20) (ci : Instruction) : Option E20 :=
  if ci.opcode = 0b100 then do
    let regAddr := ci.operands 0
    let regDst := ci.operands 1
    let imm_val := ci.operands 2
    let s ←
      (if regDst ≠ 0b000 then
        (do
          let signed_imm := binary_to_int imm_val 7
          let a ← s.readReg regAddr
          let destination_addr := toU16 ((a : Int) + signed_imm)
          let v ← s.readMem destination_addr
          s.writeReg regDst v)
      else
        s.writeReg regDst 0)
    pure s.incPc
  else pure s

/-- Block `if (curr_instruction.opcode == 0b101)` (sw). -/
def execSw (s : E20) (ci : Instruction) : Option E20 :=
  if ci.opcode = 0b101 then do
    let regAddr := ci.operands 0
    let regSrc := ci.operands 1
    let imm_val := ci.operands 2
    let signed_imm := binary_to_int imm_val 7
    let a ← s.readReg regAddr
    let source_addr := toU16 ((a : Int) + signed_imm)
    let v ← s.readReg regSrc
    let s ← s.writeMem source_addr v
    pure s.incPc
  else pure s

/-- Block `if (curr_instruction.opcode == 0b110)` (jeq). -/
def execJeq (s : E20) (ci : Instruction) : Option E20 :=
  if ci.opcode = 0b110 then do
    let regA := ci.operands 0
    let regB := ci.operands 1
    let rel_imm := ci.operands 2
    let signed_rel_imm := binary_to_int rel_imm 7
    let a ← s.readReg regA
    let b ← s.readReg regB
    if a = b then
      pure (s.setPc (toU16 ((s.pc : Int) + 1 + signed_rel_imm)))
    else
      pure s.incPc
  else pure s

/-- Block `if (curr_instruction.opcode == 0b001)` (addi). -/
def execAddi (s : E20) (ci : Instruction) : Option E20 :=
  if ci.opcode = 0b001 then do
    let regSrc := ci.operands 0
    let regDst := ci.operands 1
    let imm_val := ci.operands 2
    let s ←
      (if regDst ≠ 0b000 then
        (do
          let signed_imm := binary_to_int imm_val 7
          let a ← s.readReg regSrc
          s.writeReg regDst (toU16 ((a : Int) + signed_imm)))
      else
        s.writeReg regDst 0)
    pure s.incPc
  else pure s

/-- Block `if (curr_instruction.opcode == 0b010)` (j). -/
def execJ (s : E20) (ci : Instruction) : Option E20 :=
  if ci.opcode = 0b010 then
    let imm_val := ci.operands 0
    pure (s.setPc imm_val)
  else pure s

/-- Block `if (curr_instruction.opcode == 0b011)` (jal). -/
def execJal (s : E20) (ci : Instruction) : Option E20 :=
  if ci.opcode = 0b011 then do
    let imm_val := ci.operands 0
    let s ← s.writeReg 7 (toU16 ((s.pc : Int) + 1))
    pure (s.setPc imm_val)
  else pure s

/-- The method `execute_instruction`: the eight opcode blocks in source order. -/
def execute_instruction (s : E20) (curr_instruction : Instruction) : Option E20 := do
  let s ← s.exec000 curr_instruction
  let s ← s.execSlti curr_instruction
  let s ← s.execLw curr_instruction
  let s ← s.execSw curr_instruction
  let s ← s.execJeq curr_instruction
  let s ← s.execAddi curr_instruction
  let s ← s.execJ curr_instruction
  let s ← s.execJal curr_instruction
  pure s

/-- Outcome of one iteration of the loop of `run`. -/
inductive Cycle where
  /-- The decoded instruction is halt-flagged: the loop leaves through `break`. -/
  | halt (s : E20)
  /-- The instruction was executed; the loop goes on from `s`. -/
  | next (s : E20)
  /-- An array was accessed outside its bounds. -/
  | fault

/-- One iteration of the loop of `run`: fetch `memory_arr[pc]`, `reinitialize`,
`parse_instruction`, then `break` or `execute_instruction`. -/
def cycle (s : E20) : Cycle :=
  match s.readMem s.pc with
  | none => .fault
  | some curr_instruction =>
    let s := { s with instruction := s.instruction.reinitialize }
    let s := { s with instruction := s.instruction.parse_instruction curr_instruction s.pc }
    if s.instruction.isHalt then .halt s
    else
      match s.execute_instruction s.instruction with
      | none => .fault
      | some s' => .next s'

/-- Outcome of `run` under a bound on the number of loop iterations. -/
inductive Run where
  /-- The loop left through `break` in state `s` after executing `executed` instructions. -/
  | halted (s : E20) (executed : Nat)
  /-- An array was accessed outside its bounds. -/
  | fault
  /-- The loop is still running after the allowed number of iterations. -/
  | running

/-- The method `run`, with at most `fuel` loop iterations; `n` counts the
instructions executed so far. -/
def runFrom : Nat → Nat → E20 → Run
  | 0, _, _ => .running
  | fuel + 1, n, s =>
    match s.cycle with
    | .halt s' => .halted s' n
    | .fault => .fault
    | .next s' => runFrom fuel (n + 1) s'

/-- The method `run` with at most `fuel` loop iterations. -/
def run (fuel : Nat) (s : E20) : Run := runFrom fuel 0 s

/-- The state after `k` iterations of the loop of `run`, each of which executed an
instruction; no result if one of them left through `break` or accessed an array
outside its bounds. -/
def cycles : Nat → E20 → Option E20
  | 0, s => some s
  | k + 1, s =>
    match s.cycle with
    | .next s' => cycles k s'
    | _ => none

/-- The address computed by the lw and sw blocks:
`(unsigned short)(registers[operands[0]] + binary_to_int(operands[2], 7))`. -/
def effectiveAddr (s : E20) (ci : Instruction) : Nat :=
  toU16 ((s.registers (ci.operands 0) : Int) + binary_to_int (ci.operands 2) 7)

/-- An instruction whose opcode is one of the eight 3-bit values and whose register
fields are register indices, as every decoded instruction is. -/
def WellFormedInstr (ci : Instruction) : Prop :=
  ci.opcode < 8 ∧
  ((ci.opcode ≠ 0b010 ∧ ci.opcode ≠ 0b011) → ci.operands 0 < 8 ∧ ci.operands 1 < 8) ∧
  (ci.opcode = 0b000 → ci.operands 2 < 8)

/-- The lw or sw access of `ci` in state `s` falls outside `memory_arr`. A lw whose
destination is register 0 reads no memory. -/
def MemAccessOutOfBounds (s : E20) (ci : Instruction) : Prop :=
  ((ci.opcode = 0b100 ∧ ci.operands 1 ≠ 0) ∨ ci.opcode = 0b101) ∧ MEM_SIZE ≤ s.effectiveAddr ci

/-- The state of a new `E20` whose memory was filled with the words `ws` from address 0
on, as `load_machine_code` does for a listing with consecutive addresses. -/
def loaded (ws : List Nat) : E20 :=
  { init with memory_arr := fun a => ws.getD a 0 }

/-- The state of a new `E20` with the registers set to `regs`. -/
def withRegisters (regs : List Nat) : E20 :=
  { init with registers := fun r => regs.getD r 0 }

end E20

/-! ## Example programs and states -/

/-- The one-word program `j 0` at address 0. -/
def selfJumpProgram : E20 := E20.loaded [0x4000]

/-- The program `addi $1, $1, 5` at address 0 and `j 0` at address 1. -/
def addiJumpProgram : E20 := E20.loaded [0x2485, 0x4000]

/-- The program `addi $1, $1, 5` at address 0 and `j 1` at address 1. -/
def addiSelfJumpProgram : E20 := E20.loaded [0x2485, 0x4001]

/-- The program `lw $1, 3($0)`, `sw $1, 0($1)`, `j 2` with the data word 8192 at
address 3. -/
def farStoreProgram : E20 := E20.loaded [0x8083, 0xA480, 0x4002, 0x2000]

/-- A state with register 1 holding 5, all other registers 0. -/
def regOneFive : E20 := E20.withRegisters [0, 5]

/-- A state with register 1 holding 0xFFFF, all other registers 0. -/
def regOneAllOnes : E20 := E20.withRegisters [0, 0xFFFF]

/-- A state with register 1 holding 8192, all other registers 0. -/
def regOneMemSize : E20 := E20.withRegisters [0, 8192]

/-- A state with register 1 holding 100 and register 2 holding 42. -/
def regStoreLoad : E20 := E20.withRegisters [0, 100, 42]

/-- The program `lw $1, 3($0)`, `sw $1, 0($1)`, `j 2` with the data word 8206 at
address 3. -/
def farPcStoreProgram : E20 := E20.loaded [0x8083, 0xA480, 0x4002, 0x200E]

/-- The one-word program 0x0005: opcode 000 with the sub-opcode 0101, which no block of
`execute_instruction` handles. -/
def undefinedSubopProgram : E20 := E20.loaded [0x0005]

/-- An `Instruction` object as `parse_instruction` leaves it after decoding the halting
jump `j 0` at pc 0: opcode 010, all operands 0 and `isHalt` true. -/
def haltedInstruction : Instruction := Instruction.init.parse_instruction 0x4000 0

/-- An `E20` on which `run` has halted on `j 0` (its `Instruction` object is
`haltedInstruction`, pc 0, registers 0) and whose memory was then filled with the
program `addi $1, $1, 5`, `j 1`. -/
def reloadedAfterHalt : E20 :=
  { E20.loaded [0x2485, 0x4001] with instruction := haltedInstruction }

/-- States met while `addiJumpProgram` runs: its memory, pc 0 or 1, and an
`Instruction` object that is not halt-flagged. -/
def AddiJumpLoop (s : E20) : Prop :=
  s.memory_arr = addiJumpProgram.memory_arr ∧ s.instruction.isHalt = false ∧
    (s.pc = 0 ∨ s.pc = 1)

/-- Bitwise OR of the fields `(position, width)` of `w`, each read with `extract_bits`
and shifted back to its position. -/
def orFields (w : Nat) (fields : List (Nat × Nat)) : Nat :=
  fields.foldl (fun acc f => acc ||| (extract_bits w f.1 f.2 <<< f.1)) 0

/-! ## Bit fields: arithmetic reading -/

theorem extract_bits_eq (w p n : Nat) : extract_bits w p n = (w / 2 ^ p) % 2 ^ n := by
  simp only [extract_bits, Nat.one_shiftLeft, Nat.and_pow_two_sub_one_eq_mod,
    Nat.shiftRight_eq_div_pow]

theorem extract_bits_lt (w p n : Nat) : extract_bits w p n < 2 ^ n := by
  rw [extract_bits_eq]
  exact Nat.mod_lt _ (Nat.two_pow_pos n)

theorem extract_bits_lt_eight (w p : Nat) : extract_bits w p 3 < 8 :=
  extract_bits_lt w p 3

set_option maxRecDepth 100000 in
theorem binary_to_int_seven : ∀ v : Nat, v < 128 →
    binary_to_int v 7 = if 64 ≤ v then (v : Int) - 128 else (v : Int) := by
  decide

theorem testBit_field (w p n b : Nat) :
    (extract_bits w p n <<< p).testBit b = (decide (p ≤ b ∧ b < p + n) && w.testBit b) := by
  simp only [extract_bits, Nat.one_shiftLeft, Nat.testBit_shiftLeft, Nat.testBit_and,
    Nat.testBit_shiftRight, Nat.testBit_two_pow_sub_one, ge_iff_le]
  by_cases h : p ≤ b
  · have e : p + (b - p) = b := by omega
    by_cases h2 : b < p + n
    · have h3 : b - p < n := by omega
      simp [h, h2, h3, e]
    · have h3 : ¬ b - p < n := by omega
      simp [h, h2, h3]
  · simp [h]

theorem testBit_foldl_fields (w : Nat) (fields : List (Nat × Nat)) (acc b : Nat) :
    (fields.foldl (fun acc f => acc ||| (extract_bits w f.1 f.2 <<< f.1)) acc).testBit b =
      (acc.testBit b ||
        (decide (∃ f ∈ fields, f.1 ≤ b ∧ b < f.1 + f.2) && w.testBit b)) := by
  induction fields generalizing acc with
  | nil => simp
  | cons f fs ih =>
    rw [List.foldl_cons, ih, Nat.testBit_or, testBit_field]
    by_cases hf : f.1 ≤ b ∧ b < f.1 + f.2
    · cases hw : w.testBit b <;> simp [hf]
    · by_cases hfs : ∃ g ∈ fs, g.1 ≤ b ∧ b < g.1 + g.2
      · have : ∃ g ∈ f :: fs, g.1 ≤ b ∧ b < g.1 + g.2 := by
          obtain ⟨g, hg, hb⟩ := hfs
          exact ⟨g, List.mem_cons_of_mem _ hg, hb⟩
        simp [hf, hfs, this]
      · have : ¬ ∃ g ∈ f :: fs, g.1 ≤ b ∧ b < g.1 + g.2 := by
          rintro ⟨g, hg, hb⟩
          rcases List.mem_cons.1 hg with rfl | hg
          · exact hf hb
          · exact hfs ⟨g, hg, hb⟩
        simp [hf, hfs, this]

/-! ## Decoder: what `parse_instruction` stores -/

namespace Instruction

@[simp] theorem setOperand_opcode (i : Instruction) (k : Fin 4) (v : Nat) :
    (i.setOperand k v).opcode = i.opcode := rfl

@[simp] theorem setOperand_isHalt (i : Instruction) (k : Fin 4) (v : Nat) :
    (i.setOperand k v).isHalt = i.isHalt := rfl

theorem setOperand_operands (i : Instruction) (k j : Fin 4) (v : Nat) :
    (i.setOperand k v).operands j = if j = k then v else i.operands j := rfl

theorem parse_opcode (i0 : Instruction) (w pc : Nat) :
    (i0.parse_instruction w pc).opcode = extract_bits w 13 3 := by
  simp only [parse_instruction, parseJump, parseTwoReg, parseThreeReg, parseOpcode]
  split_ifs <;> rfl

/-- Decoding a word of opcode 000: four operands, halt flag untouched. -/
theorem parse_three (i0 : Instruction) (w pc : Nat) (h : extract_bits w 13 3 = 0b000) :
    i0.parse_instruction w pc =
      ⟨0b000, fun j => if j = 3 then extract_bits w 0 4 else if j = 2 then extract_bits w 4 3
        else if j = 1 then extract_bits w 7 3 else if j = 0 then extract_bits w 10 3
        else i0.operands j, i0.isHalt⟩ := by
  simp [parse_instruction, parseJump, parseTwoReg, parseThreeReg, parseOpcode, h, setOperand]

/-- Decoding a word of opcode 001, 100, 101, 110 or 111: three operands, the fourth
operand and the halt flag untouched. -/
theorem parse_two (i0 : Instruction) (w pc : Nat)
    (h : extract_bits w 13 3 = 0b001 ∨ extract_bits w 13 3 = 0b100 ∨ extract_bits w 13 3 = 0b101
      ∨ extract_bits w 13 3 = 0b110 ∨ extract_bits w 13 3 = 0b111) :
    i0.parse_instruction w pc =
      ⟨extract_bits w 13 3, fun j => if j = 2 then extract_bits w 0 7
        else if j = 1 then extract_bits w 7 3 else if j = 0 then extract_bits w 10 3
        else i0.operands j, i0.isHalt⟩ := by
  rcases h with h | h | h | h | h <;>
    simp [parse_instruction, parseJump, parseTwoReg, parseThreeReg, parseOpcode, h, setOperand]

/-- Decoding a word of opcode 010 or 011: the 13-bit immediate is operand 0 and the
halt flag is raised when it equals the pc (and never lowered). -/
theorem parse_jump (i0 : Instruction) (w pc : Nat)
    (h : extract_bits w 13 3 = 0b010 ∨ extract_bits w 13 3 = 0b011) :
    (i0.parse_instruction w pc).opcode = extract_bits w 13 3 ∧
    (i0.parse_instruction w pc).operands 0 = extract_bits w 0 13 ∧
    (i0.parse_instruction w pc).isHalt = (i0.isHalt || decide (extract_bits w 0 13 = pc)) := by
  rcases h with h | h <;>
  · by_cases hp : extract_bits w 0 13 = pc <;>
    simp [parse_instruction, parseJump, parseTwoReg, parseThreeReg, parseOpcode, h, hp,
      setOperand_operands]

/-- Register fields of a decoded instruction of opcode 000, 001, 100, 101, 110 or 111
are register indices. -/
theorem parse_regs_lt (i0 : Instruction) (w pc : Nat)
    (h : extract_bits w 13 3 ≠ 0b010 ∧ extract_bits w 13 3 ≠ 0b011) :
    (i0.parse_instruction w pc).operands 0 < 8 ∧ (i0.parse_instruction w pc).operands 1 < 8 ∧
    ((i0.parse_instruction w pc).opcode = 0b000 → (i0.parse_instruction w pc).operands 2 < 8) := by
  have hlt := extract_bits_lt_eight w 13
  have h10 := extract_bits_lt_eight w 10
  have h7 := extract_bits_lt_eight w 7
  have h4 := extract_bits_lt_eight w 4
  by_cases h0 : extract_bits w 13 3 = 0b000
  · rw [parse_three i0 w pc h0]
    simp [h10, h7, h4]
  · have h2 : extract_bits w 13 3 = 0b001 ∨ extract_bits w 13 3 = 0b100
        ∨ extract_bits w 13 3 = 0b101 ∨ extract_bits w 13 3 = 0b110
        ∨ extract_bits w 13 3 = 0b111 := by
      simp only [Nat.reduceEqDiff] at h h0 ⊢
      omega
    rw [parse_two i0 w pc h2]
    simp [h10, h7, h0]

end Instruction

/-! ## Executor: the effect of each opcode block -/

namespace E20

@[simp] theorem setReg_registers (s : E20) (r v x : Nat) :
    (s.setReg r v).registers x = if x = r then v else s.registers x := rfl

@[simp] theorem setReg_memory_arr (s : E20) (r v : Nat) :
    (s.setReg r v).memory_arr = s.memory_arr := rfl

@[simp] theorem setReg_pc (s : E20) (r v : Nat) : (s.setReg r v).pc = s.pc := rfl

@[simp] theorem setReg_instruction (s : E20) (r v : Nat) :
    (s.setReg r v).instruction = s.instruction := rfl

@[simp] theorem setMem_memory_arr (s : E20) (a v x : Nat) :
    (s.setMem a v).memory_arr x = if x = a then v else s.memory_arr x := rfl

@[simp] theorem setMem_registers (s : E20) (a v : Nat) :
    (s.setMem a v).registers = s.registers := rfl

@[simp] theorem setMem_pc (s : E20) (a v : Nat) : (s.setMem a v).pc = s.pc := rfl

@[simp] theorem setMem_instruction (s : E20) (a v : Nat) :
    (s.setMem a v).instruction = s.instruction := rfl

@[simp] theorem setPc_pc (s : E20) (v : Nat) : (s.setPc v).pc = v := rfl

@[simp] theorem setPc_registers (s : E20) (v : Nat) : (s.setPc v).registers = s.registers := rfl

@[simp] theorem setPc_memory_arr (s : E20) (v : Nat) :
    (s.setPc v).memory_arr = s.memory_arr := rfl

@[simp] theorem setPc_instruction (s : E20) (v : Nat) :
    (s.setPc v).instruction = s.instruction := rfl

@[simp] theorem incPc_pc (s : E20) : s.incPc.pc = toU16 ((s.pc : Int) + 1) := rfl

@[simp] theorem incPc_registers (s : E20) : s.incPc.registers = s.registers := rfl

@[simp] theorem incPc_memory_arr (s : E20) : s.incPc.memory_arr = s.memory_arr := rfl

@[simp] theorem incPc_instruction (s : E20) : s.incPc.instruction = s.instruction := rfl

theorem readReg_of_lt (s : E20) {r : Nat} (h : r < 8) : s.readReg r = some (s.registers r) := by
  simp [readReg, NUM_REGS, h]

theorem writeReg_of_lt (s : E20) {r : Nat} (v : Nat) (h : r < 8) :
    s.writeReg r v = some (s.setReg r v) := by
  simp [writeReg, NUM_REGS, h]

/-- The guarded register write of the add, sub, or, and, slt blocks, with register
indices in range. -/
theorem aluBlock_eq (s : E20) {a b d : Nat} (f : Nat → Nat → Nat)
    (ha : a < 8) (hb : b < 8) (hd : d < 8) :
    s.aluBlock a b d f =
      some (s.setReg d (if d ≠ 0 then f (s.registers a) (s.registers b) else 0)).incPc := by
  by_cases h0 : d = 0
  · subst h0
    simp [aluBlock, writeReg_of_lt]
  · simp [aluBlock, readReg_of_lt, writeReg_of_lt, ha, hb, hd, h0]

/-- Only the block of its own opcode acts: opcode 000. -/
theorem execute_instruction_000 (s : E20) (ci : Instruction) (h : ci.opcode = 0b000) :
    s.execute_instruction ci = s.exec000 ci := by
  simp [execute_instruction, execSlti, execLw, execSw, execJeq, execAddi, execJ, execJal, h]

/-- Only the block of its own opcode acts: opcode 111 (slti). -/
theorem execute_instruction_slti (s : E20) (ci : Instruction) (h : ci.opcode = 0b111) :
    s.execute_instruction ci = s.execSlti ci := by
  simp [execute_instruction, exec000, execSlti, execLw, execSw, execJeq, execAddi, execJ,
    execJal, h]

/-- Only the block of its own opcode acts: opcode 100 (lw). -/
theorem execute_instruction_lw (s : E20) (ci : Instruction) (h : ci.opcode = 0b100) :
    s.execute_instruction ci = s.execLw ci := by
  simp [execute_instruction, exec000, execSlti, execLw, execSw, execJeq, execAddi, execJ,
    execJal, h]

/-- Only the block of its own opcode acts: opcode 101 (sw). -/
theorem execute_instruction_sw (s : E20) (ci : Instruction) (h : ci.opcode = 0b101) :
    s.execute_instruction ci = s.execSw ci := by
  simp [execute_instruction, exec000, execSlti, execLw, execSw, execJeq, execAddi, execJ,
    execJal, h]

/-- Only the block of its own opcode acts: opcode 110 (jeq). -/
theorem execute_instruction_jeq (s : E20) (ci : Instruction) (h : ci.opcode = 0b110) :
    s.execute_instruction ci = s.execJeq ci := by
  simp [execute_instruction, exec000, execSlti, execLw, execSw, execJeq, execAddi, execJ,
    execJal, h]

/-- Only the block of its own opcode acts: opcode 001 (addi). -/
theorem execute_instruction_addi (s : E20) (ci : Instruction) (h : ci.opcode = 0b001) :
    s.execute_instruction ci = s.execAddi ci := by
  simp [execute_instruction, exec000, execSlti, execLw, execSw, execJeq, execAddi, execJ,
    execJal, h]

/-- Only the block of its own opcode acts: opcode 010 (j). -/
theorem execute_instruction_j (s : E20) (ci : Instruction) (h : ci.opcode = 0b010) :
    s.execute_instruction ci = s.execJ ci := by
  simp [execute_instruction, exec000, execSlti, execLw, execSw, execJeq, execAddi, execJ,
    execJal, h]

/-- Only the block of its own opcode acts: opcode 011 (jal). -/
theorem execute_instruction_jal (s : E20) (ci : Instruction) (h : ci.opcode = 0b011) :
    s.execute_instruction ci = s.execJal ci := by
  simp [execute_instruction, exec000, execSlti, execLw, execSw, execJeq, execAddi, execJ,
    execJal, h]

/-- Opcode 000 with register fields in range: the block selected by the sub-opcode. -/
theorem exec000_eq (s : E20) (ci : Instruction) (h : ci.opcode = 0b000)
    (h0 : ci.operands 0 < 8) :
    s.exec000 ci =
      if ci.operands 3 = 0b0000 then
        s.aluBlock (ci.operands 0) (ci.operands 1) (ci.operands 2)
          (fun a b => toU16 ((a : Int) + (b : Int)))
      else if ci.operands 3 = 0b0001 then
        s.aluBlock (ci.operands 0) (ci.operands 1) (ci.operands 2)
          (fun a b => toU16 ((a : Int) - (b : Int)))
      else if ci.operands 3 = 0b0010 then
        s.aluBlock (ci.operands 0) (ci.operands 1) (ci.operands 2) (fun a b => a ||| b)
      else if ci.operands 3 = 0b0011 then
        s.aluBlock (ci.operands 0) (ci.operands 1) (ci.operands 2) (fun a b => a &&& b)
      else if ci.operands 3 = 0b0100 then
        s.aluBlock (ci.operands 0) (ci.operands 1) (ci.operands 2)
          (fun a b => if a < b then 1 else 0)
      else if ci.operands 3 = 0b1000 then some (s.setPc (s.registers (ci.operands 0)))
      else some s := by
  unfold exec000
  rw [if_pos h]
  by_cases e0 : ci.operands 3 = 0b0000
  · simp [e0]
  by_cases e1 : ci.operands 3 = 0b0001
  · simp [e1]
  by_cases e2 : ci.operands 3 = 0b0010
  · simp [e2]
  by_cases e3 : ci.operands 3 = 0b0011
  · simp [e3]
  by_cases e4 : ci.operands 3 = 0b0100
  · simp [e4]
  by_cases e8 : ci.operands 3 = 0b1000
  · simp [e8, readReg_of_lt, h0]
  · simp [e0, e1, e2, e3, e4, e8]

/-- The slti block with register fields in range. -/
theorem execSlti_eq (s : E20) (ci : Instruction) (h : ci.opcode = 0b111)
    (h0 : ci.operands 0 < 8) (h1 : ci.operands 1 < 8) :
    s.execSlti ci =
      some (s.setReg (ci.operands 1)
        (if ci.operands 1 ≠ 0 then
          (if (s.registers (ci.operands 0) : Int) < binary_to_int (ci.operands 2) 7 then 1 else 0)
         else 0)).incPc := by
  unfold execSlti
  rw [if_pos h]
  by_cases hd : ci.operands 1 = 0
  · simp [hd, writeReg_of_lt]
  · by_cases hc : (s.registers (ci.operands 0) : Int) < binary_to_int (ci.operands 2) 7 <;>
      simp [hd, hc, readReg_of_lt, writeReg_of_lt, h0, h1]

/-- The lw block with register fields in range: a load from `effectiveAddr`, which has
a result only when the address is inside `memory_arr`; no memory access when the
destination is register 0. -/
theorem execLw_eq (s : E20) (ci : Instruction) (h : ci.opcode = 0b100)
    (h0 : ci.operands 0 < 8) (h1 : ci.operands 1 < 8) :
    s.execLw ci =
      if ci.operands 1 ≠ 0 then
        (if s.effectiveAddr ci < MEM_SIZE then
          some (s.setReg (ci.operands 1) (s.memory_arr (s.effectiveAddr ci))).incPc
         else none)
      else some (s.setReg (ci.operands 1) 0).incPc := by
  unfold execLw
  rw [if_pos h]
  by_cases hd : ci.operands 1 = 0
  · simp [hd, writeReg_of_lt]
  · by_cases ha : s.effectiveAddr ci < MEM_SIZE
    · have ha2 := ha
      unfold effectiveAddr at ha2
      simp [hd, ha, ha2, readReg_of_lt, writeReg_of_lt, readMem, h0, h1, effectiveAddr]
    · have ha2 := ha
      unfold effectiveAddr at ha2
      simp [hd, ha, ha2, readReg_of_lt, readMem, h0]

/-- The sw block with register fields in range: a store to `effectiveAddr`, which has
a result only when the address is inside `memory_arr`. -/
theorem execSw_eq (s : E20) (ci : Instruction) (h : ci.opcode = 0b101)
    (h0 : ci.operands 0 < 8) (h1 : ci.operands 1 < 8) :
    s.execSw ci =
      if s.effectiveAddr ci < MEM_SIZE then
        some (s.setMem (s.effectiveAddr ci) (s.registers (ci.operands 1))).incPc
      else none := by
  unfold execSw
  rw [if_pos h]
  by_cases ha : s.effectiveAddr ci < MEM_SIZE
  · have ha2 := ha
    unfold effectiveAddr at ha2
    simp [ha, ha2, readReg_of_lt, writeMem, h0, h1, effectiveAddr]
  · have ha2 := ha
    unfold effectiveAddr at ha2
    simp [ha, ha2, readReg_of_lt, writeMem, h0, h1]

/-- The jeq block with register fields in range. -/
theorem execJeq_eq (s : E20) (ci : Instruction) (h : ci.opcode = 0b110)
    (h0 : ci.operands 0 < 8) (h1 : ci.operands 1 < 8) :
    s.execJeq ci =
      if s.registers (ci.operands 0) = s.registers (ci.operands 1) then
        some (s.setPc (toU16 ((s.pc : Int) + 1 + binary_to_int (ci.operands 2) 7)))
      else some s.incPc := by
  unfold execJeq
  rw [if_pos h]
  by_cases hc : s.registers (ci.operands 0) = s.registers (ci.operands 1) <;>
    simp [hc, readReg_of_lt, h0, h1]

/-- The addi block with register fields in range. -/
theorem execAddi_eq (s : E20) (ci : Instruction) (h : ci.opcode = 0b001)
    (h0 : ci.operands 0 < 8) (h1 : ci.operands 1 < 8) :
    s.execAddi ci =
      some (s.setReg (ci.operands 1)
        (if ci.operands 1 ≠ 0 then
          toU16 ((s.registers (ci.operands 0) : Int) + binary_to_int (ci.operands 2) 7)
         else 0)).incPc := by
  unfold execAddi
  rw [if_pos h]
  by_cases hd : ci.operands 1 = 0
  · simp [hd, writeReg_of_lt]
  · simp [hd, readReg_of_lt, writeReg_of_lt, h0, h1]

/-- The j block. -/
theorem execJ_eq (s : E20) (ci : Instruction) (h : ci.opcode = 0b010) :
    s.execJ ci = some (s.setPc (ci.operands 0)) := by
  unfold execJ
  rw [if_pos h]
  rfl

/-- The jal block. -/
theorem execJal_eq (s : E20) (ci : Instruction) (h : ci.opcode = 0b011) :
    s.execJal ci = some ((s.setReg 7 (toU16 ((s.pc : Int) + 1))).setPc (ci.operands 0)) := by
  unfold execJal
  rw [if_pos h]
  simp [writeReg_of_lt]

theorem wellFormedInstr_parse (i0 : Instruction) (w pc : Nat) :
    WellFormedInstr (i0.parse_instruction w pc) := by
  refine ⟨?_, ?_, ?_⟩
  · rw [Instruction.parse_opcode]
    exact extract_bits_lt_eight w 13
  · intro h
    rw [Instruction.parse_opcode] at h
    have := Instruction.parse_regs_lt i0 w pc h
    exact ⟨this.1, this.2.1⟩
  · intro h
    have h' := h
    rw [Instruction.parse_opcode] at h'
    have := Instruction.parse_regs_lt i0 w pc (by rw [h']; decide)
    exact this.2.2 h

/-- A write to a register other than register 0, or of the value 0, keeps register 0
at zero. -/
theorem write_reg0 (s : E20) (d v : Nat) (h0 : s.registers 0 = 0) (h : d ≠ 0 ∨ v = 0) :
    (s.setReg d v).incPc.registers 0 = 0 := by
  rcases h with h | h
  · have : ¬ (0 = d) := fun e => h e.symm
    simp [this, h0]
  · simp [h, h0]

/-- A guarded register write keeps register 0 at zero. -/
theorem guarded_write_reg0 (s : E20) (d v : Nat) (h0 : s.registers 0 = 0) :
    (s.setReg d (if d ≠ 0 then v else 0)).incPc.registers 0 = 0 := by
  by_cases hd : d = 0
  · simp [hd]
  · have : ¬ (0 = d) := fun h => hd h.symm
    simp [hd, this, h0]

theorem execute_instruction_reg0 (s : E20) (ci : Instruction) (hwf : WellFormedInstr ci)
    (h0 : s.registers 0 = 0) :
    (∀ s', s.execute_instruction ci = some s' → s'.registers 0 = 0) ∧
    (s.execute_instruction ci = none ↔ MemAccessOutOfBounds s ci) := by
  obtain ⟨hk, hr, hr2⟩ := hwf
  obtain ⟨k, hk'⟩ : ∃ k, ci.opcode = k := ⟨_, rfl⟩
  rw [hk'] at hk
  unfold MemAccessOutOfBounds
  interval_cases k
  · -- opcode 000
    obtain ⟨h1, h2⟩ := hr (by rw [hk']; decide)
    have h3 := hr2 hk'
    rw [execute_instruction_000 s ci hk', exec000_eq s ci hk' h1]
    simp only [aluBlock_eq s _ h1 h2 h3, hk']
    refine ⟨?_, by split_ifs <;> simp⟩
    intro s' hs'
    split_ifs at hs' <;> cases hs' <;>
      first
        | exact write_reg0 s _ _ h0 (Or.inl (by assumption))
        | exact write_reg0 s _ _ h0 (Or.inr rfl)
        | exact h0
  · -- opcode 001, addi
    obtain ⟨h1, h2⟩ := hr (by rw [hk']; decide)
    rw [execute_instruction_addi s ci hk', execAddi_eq s ci hk' h1 h2]
    refine ⟨?_, by simp [hk']⟩
    intro s' hs'
    cases hs'
    exact guarded_write_reg0 s _ _ h0
  · -- opcode 010, j
    rw [execute_instruction_j s ci hk', execJ_eq s ci hk']
    refine ⟨?_, by simp [hk']⟩
    intro s' hs'
    cases hs'
    exact h0
  · -- opcode 011, jal
    rw [execute_instruction_jal s ci hk', execJal_eq s ci hk']
    refine ⟨?_, by simp [hk']⟩
    intro s' hs'
    cases hs'
    simp [h0]
  · -- opcode 100, lw
    obtain ⟨h1, h2⟩ := hr (by rw [hk']; decide)
    rw [execute_instruction_lw s ci hk', execLw_eq s ci hk' h1 h2]
    constructor
    · intro s' hs'
      by_cases hd : ci.operands 1 = 0
      · simp only [hd, ne_eq, not_true_eq_false, if_false] at hs'
        cases hs'
        simp [h0]
      · have hd' : ¬ (0 = ci.operands 1) := fun h => hd h.symm
        rw [if_pos hd] at hs'
        split_ifs at hs'
        cases hs'
        simp [hd', h0]
    · by_cases hd : ci.operands 1 = 0
      · simp [hd, hk']
      · by_cases ha : s.effectiveAddr ci < MEM_SIZE
        · simp [hd, ha, hk']
        · simp [hd, ha, hk', Nat.le_of_not_lt ha]
  · -- opcode 101, sw
    obtain ⟨h1, h2⟩ := hr (by rw [hk']; decide)
    rw [execute_instruction_sw s ci hk', execSw_eq s ci hk' h1 h2]
    constructor
    · intro s' hs'
      split_ifs at hs'
      cases hs'
      simp [h0]
    · by_cases ha : s.effectiveAddr ci < MEM_SIZE
      · simp [ha, hk']
      · simp [ha, hk', Nat.le_of_not_lt ha]
  · -- opcode 110, jeq
    obtain ⟨h1, h2⟩ := hr (by rw [hk']; decide)
    rw [execute_instruction_jeq s ci hk', execJeq_eq s ci hk' h1 h2]
    refine ⟨?_, by split_ifs <;> simp [hk']⟩
    intro s' hs'
    split_ifs at hs' <;> cases hs' <;> exact h0
  · -- opcode 111, slti
    obtain ⟨h1, h2⟩ := hr (by rw [hk']; decide)
    rw [execute_instruction_slti s ci hk', execSlti_eq s ci hk' h1 h2]
    refine ⟨?_, by simp [hk']⟩
    intro s' hs'
    cases hs'
    exact guarded_write_reg0 s _ _ h0

/-- One iteration of the loop of `run` keeps register 0 at zero, whether it executes an
instruction or leaves through `break`. -/
theorem cycle_reg0 (s s' : E20) (h0 : s.registers 0 = 0)
    (h : s.cycle = .next s' ∨ s.cycle = .halt s') : s'.registers 0 = 0 := by
  unfold cycle at h
  cases hm : s.readMem s.pc with
  | none => rw [hm] at h; rcases h with h | h <;> cases h
  | some w =>
    rw [hm] at h
    simp only at h
    split_ifs at h with hh
    · rcases h with h | h
      · cases h
      · cases h; exact h0
    · cases he : E20.execute_instruction
          { s with instruction := s.instruction.reinitialize.parse_instruction w s.pc }
          (s.instruction.reinitialize.parse_instruction w s.pc) with
      | none => rw [he] at h; rcases h with h | h <;> cases h
      | some t =>
        rw [he] at h
        rcases h with h | h
        · cases h
          exact (execute_instruction_reg0
            { s with instruction := s.instruction.reinitialize.parse_instruction w s.pc } _
            (wellFormedInstr_parse s.instruction.reinitialize w s.pc) h0).1 _ he
        · cases h

/-- Register 0 is zero in the state in which `run` terminates, if it was zero at the
start. -/
theorem runFrom_reg0 (fuel : Nat) :
    ∀ (n m : Nat) (s s' : E20), s.registers 0 = 0 → runFrom fuel n s = .halted s' m →
      s'.registers 0 = 0 := by
  induction fuel with
  | zero => intro n m s s' _ h; cases h
  | succ k ih =>
    intro n m s s' h0 h
    unfold runFrom at h
    cases hc : s.cycle with
    | halt t =>
      rw [hc] at h
      cases h
      exact cycle_reg0 s _ h0 (Or.inr hc)
    | fault => rw [hc] at h; cases h
    | next t =>
      rw [hc] at h
      exact ih (n + 1) m t s' (cycle_reg0 s t h0 (Or.inl hc)) h

end E20

open E20 Instruction

/-! ## Claims C1 to C3 -/

/-- Register 0 stays zero in every defined execution: from a state with
`registers[0] = 0`, executing the instruction decoded from any word at any pc (into an
`Instruction` object with any previous contents) gives only states with
`registers[0] = 0`. The execution has a result exactly when its lw or sw access, if
any, is inside `memory_arr`. -/
theorem register_zero_of_result (s : E20) (i0 : Instruction) (w pc : Nat)
    (h0 : s.registers 0 = 0) :
    (∀ s', s.execute_instruction (i0.parse_instruction w pc) = some s' → s'.registers 0 = 0) ∧
    (s.execute_instruction (i0.parse_instruction w pc) = none ↔
      MemAccessOutOfBounds s (i0.parse_instruction w pc)) :=
  execute_instruction_reg0 s _ (wellFormedInstr_parse i0 w pc) h0

/-- Example for `register_zero_of_result`: `add $0, $0, $1` (word 0x0080) with
register 1 holding 5: the sum is 5, the execution has a result and register 0 is 0 in it. -/
theorem register_zero_of_result_example :
    regOneFive.registers 0 = 0 ∧ regOneFive.registers 0 + regOneFive.registers 1 = 5 ∧
    ∃ s', regOneFive.execute_instruction (Instruction.init.parse_instruction 0x0080 0) = some s' ∧
      s'.registers 0 = 0 :=
  ⟨rfl, rfl, _, rfl,
    (register_zero_of_result regOneFive Instruction.init 0x0080 0 rfl).1 _ rfl⟩

/-- C1 at a failing input. The state after the first cycle of `farStoreProgram` is
reachable from a new `E20` and has `registers[0] = 0` and `registers[1] = 8192`; the
instruction decoded at its pc is `sw $1, 0($1)`, whose effective address is `MEM_SIZE`,
the index just past `memory_arr`. The store is outside the array, so `execute_instruction`
has no defined result and nothing gives `registers[0] = 0` after it. -/
theorem C1_register_zero_store_outside :
    ∃ s1, farStoreProgram.cycle = .next s1 ∧ s1.registers 0 = 0 ∧ s1.registers 1 = 8192 ∧
      (s1.instruction.reinitialize.parse_instruction (s1.memory_arr s1.pc) s1.pc).opcode
        = 0b101 ∧
      (s1.instruction.reinitialize.parse_instruction (s1.memory_arr s1.pc) s1.pc).operands 1
        = 1 ∧
      s1.effectiveAddr (s1.instruction.reinitialize.parse_instruction (s1.memory_arr s1.pc) s1.pc)
        = MEM_SIZE ∧
      s1.execute_instruction
        (s1.instruction.reinitialize.parse_instruction (s1.memory_arr s1.pc) s1.pc) = none ∧
      s1.cycle = .fault :=
  ⟨_, rfl, rfl, rfl, rfl, rfl, rfl, rfl, rfl⟩

/-- C2. Halt detection for the unconditional jump: for a word `w` whose bits 13..15 are
010 (`w / 8192 = 2`, which makes `w` a 16-bit word), decoding into a new `Instruction`
sets `isHalt` exactly when the 13-bit immediate `w % 8192` equals the pc. -/
theorem C2_jump_halt_iff (w pc : Nat) (hop : w / 8192 = 0b010) :
    (Instruction.init.parse_instruction w pc).isHalt = true ↔ w % 8192 = pc := by
  have hop' : extract_bits w 13 3 = 0b010 := by
    rw [extract_bits_eq]; norm_num; omega
  have himm : extract_bits w 0 13 = w % 8192 := by
    rw [extract_bits_eq]; norm_num
  rw [(parse_jump Instruction.init w pc (Or.inl hop')).2.2, himm]
  simp [Instruction.init]

/-- Witness of C2 at the word 0x4000 (`j 0`) and pc 0. -/
theorem C2_jump_halt_iff_witness :
    0x4000 / 8192 = 0b010 ∧
    ((Instruction.init.parse_instruction 0x4000 0).isHalt = true ↔ 0x4000 % 8192 = 0) :=
  ⟨by decide, C2_jump_halt_iff 0x4000 0 (by decide)⟩

/-- C3, as stated, fails: the word 0x6000 (`jal 0`, opcode 011) decoded at pc 0 into a new
`Instruction` is halt-flagged. -/
theorem C3_jal_not_halt_counterexample :
    0x6000 < 65536 ∧ 0x6000 / 8192 = 0b011 ∧ 0x6000 % 8192 = 0 ∧
    (Instruction.init.parse_instruction 0x6000 0).isHalt = true := by
  decide

/-- C3, amended. The halt test is applied to jal as well: for a word `w` whose bits
13..15 are 011 (`w / 8192 = 3`, which makes `w` a 16-bit word), decoding into a new
`Instruction` sets `isHalt` exactly when the 13-bit immediate `w % 8192` equals the pc. -/
theorem C3_jal_halt_iff (w pc : Nat) (hop : w / 8192 = 0b011) :
    (Instruction.init.parse_instruction w pc).isHalt = true ↔ w % 8192 = pc := by
  have hop' : extract_bits w 13 3 = 0b011 := by
    rw [extract_bits_eq]; norm_num; omega
  have himm : extract_bits w 0 13 = w % 8192 := by
    rw [extract_bits_eq]; norm_num
  rw [(parse_jump Instruction.init w pc (Or.inr hop')).2.2, himm]
  simp [Instruction.init]

/-- Witness of the amended C3 at the word 0x6001 (`jal 1`) and pc 0: not halt-flagged. -/
theorem C3_jal_halt_iff_witness :
    0x6001 / 8192 = 0b011 ∧
    ((Instruction.init.parse_instruction 0x6001 0).isHalt = true ↔ 0x6001 % 8192 = 0) :=
  ⟨by decide, C3_jal_halt_iff 0x6001 0 (by decide)⟩

/-! ## Claims C4 to C7 -/

/-- C4 at a failing input. In `farStoreProgram` the first cycle (`lw $1, 3($0)`) loads 8192
into register 1; the second instruction `sw $1, 0($1)` then has effective address 8192,
which is not reduced modulo 8192 to 0: the store indexes `memory_arr` outside its 8192
cells and neither the instruction nor `run` has a defined result. -/
theorem C4_store_outside_memory :
    (∃ s1, farStoreProgram.cycle = .next s1 ∧ s1.pc = 1 ∧ s1.registers 1 = 8192 ∧
      s1.effectiveAddr (s1.instruction.reinitialize.parse_instruction (s1.memory_arr 1) 1) = 8192 ∧
      s1.execute_instruction (s1.instruction.reinitialize.parse_instruction (s1.memory_arr 1) 1)
        = none) ∧
    8192 % MEM_SIZE = 0 ∧ ¬ (8192 < MEM_SIZE) ∧
    farStoreProgram.run 2 = .fault := by
  refine ⟨⟨_, rfl, rfl, rfl, rfl, rfl⟩, rfl, by decide, rfl⟩

/-- C5, as stated, fails: with register 1 holding 0xFFFF (signed value -1), executing
`slti $2, $1, 0` (word 0xE500) leaves 0 in register 2, although -1 is less than the
sign-extended immediate 0. -/
theorem C5_slti_signed_counterexample :
    (Instruction.init.parse_instruction 0xE500 0).opcode = 0b111 ∧
    (Instruction.init.parse_instruction 0xE500 0).operands 0 = 1 ∧
    (Instruction.init.parse_instruction 0xE500 0).operands 1 = 2 ∧
    (Instruction.init.parse_instruction 0xE500 0).operands 2 = 0 ∧
    regOneAllOnes.registers 1 = 0xFFFF ∧
    toS16 (regOneAllOnes.registers 1) < binary_to_int 0 7 ∧
    (regOneAllOnes.execute_instruction (Instruction.init.parse_instruction 0xE500 0)).map
      (fun s => s.registers 2) = some 0 := by
  refine ⟨rfl, rfl, rfl, rfl, rfl, by decide, rfl⟩

/-- C5, amended. slti compares the register content as an unsigned value (0..65535,
never reinterpreted as signed) with the sign-extended immediate: for a decoded slti
with `regDst ≠ 0` the execution has a result in which `registers[regDst]` is 1 if
`registers[regSrc] < sign_extend(imm7, 7)` as integers and 0 otherwise; so it is 1
exactly when `imm7 < 64` and `registers[regSrc] < imm7`. -/
theorem C5_slti_unsigned_register (s : E20) (i0 : Instruction) (w pc : Nat)
    (hop : (i0.parse_instruction w pc).opcode = 0b111)
    (hd : (i0.parse_instruction w pc).operands 1 ≠ 0) :
    ∃ s', s.execute_instruction (i0.parse_instruction w pc) = some s' ∧
      binary_to_int ((i0.parse_instruction w pc).operands 2) 7 =
        (if 64 ≤ (i0.parse_instruction w pc).operands 2
          then ((i0.parse_instruction w pc).operands 2 : Int) - 128
          else ((i0.parse_instruction w pc).operands 2 : Int)) ∧
      s'.registers ((i0.parse_instruction w pc).operands 1) =
        (if (s.registers ((i0.parse_instruction w pc).operands 0) : Int) <
            binary_to_int ((i0.parse_instruction w pc).operands 2) 7 then 1 else 0) ∧
      (s'.registers ((i0.parse_instruction w pc).operands 1) = 1 ↔
        (i0.parse_instruction w pc).operands 2 < 64 ∧
        s.registers ((i0.parse_instruction w pc).operands 0) <
          (i0.parse_instruction w pc).operands 2) := by
  have hop' := hop
  rw [parse_opcode] at hop'
  have hp := parse_two i0 w pc (by simp [hop'])
  have h7 : (i0.parse_instruction w pc).operands 2 < 128 := by
    rw [hp]; exact extract_bits_lt w 0 7
  obtain ⟨-, hr, -⟩ := wellFormedInstr_parse i0 w pc
  obtain ⟨h0, h1⟩ := hr (by rw [hop]; decide)
  generalize i0.parse_instruction w pc = ci at *
  have hb := binary_to_int_seven (ci.operands 2) h7
  refine ⟨_, by rw [execute_instruction_slti s ci hop, execSlti_eq s ci hop h0 h1], hb, ?_, ?_⟩
  · simp [hd]
  · simp only [incPc_registers, setReg_registers, if_true, if_pos hd, hb]
    split_ifs <;> simp <;> omega

/-- Witness of the amended C5 at `slti $2, $1, 0` (word 0xE500) with register 1 holding
0xFFFF. -/
theorem C5_slti_unsigned_register_witness :
    (Instruction.init.parse_instruction 0xE500 0).opcode = 0b111 ∧
    (Instruction.init.parse_instruction 0xE500 0).operands 1 ≠ 0 ∧
    ∃ s', regOneAllOnes.execute_instruction (Instruction.init.parse_instruction 0xE500 0)
        = some s' ∧
      s'.registers ((Instruction.init.parse_instruction 0xE500 0).operands 1) =
        (if (regOneAllOnes.registers ((Instruction.init.parse_instruction 0xE500 0).operands 0)
              : Int) <
            binary_to_int ((Instruction.init.parse_instruction 0xE500 0).operands 2) 7
          then 1 else 0) := by
  obtain ⟨s', h1, -, h3, -⟩ :=
    C5_slti_unsigned_register regOneAllOnes Instruction.init 0xE500 0 rfl (by decide)
  exact ⟨rfl, by decide, s', h1, h3⟩

/-- C6. Store/load round trip: a decoded sw with source register `s` and effective
address `A < 8192`, followed by a decoded lw with destination `d` (`d ≠ 0`, `d ≠ s`)
whose effective address is `A` too, both have results; the lw still addresses `A` after
the sw, and afterwards `registers[d]` is the value `registers[s]` had when the sw
executed and `registers[s]` is unchanged. -/
theorem C6_store_load_round_trip (st : E20) (i1 i2 : Instruction) (w1 w2 pc1 pc2 A : Nat)
    (hsw : (i1.parse_instruction w1 pc1).opcode = 0b101)
    (hlw : (i2.parse_instruction w2 pc2).opcode = 0b100)
    (hd0 : (i2.parse_instruction w2 pc2).operands 1 ≠ 0)
    (hds : (i2.parse_instruction w2 pc2).operands 1 ≠ (i1.parse_instruction w1 pc1).operands 1)
    (hA : A < MEM_SIZE)
    (hswA : st.effectiveAddr (i1.parse_instruction w1 pc1) = A)
    (hlwA : st.effectiveAddr (i2.parse_instruction w2 pc2) = A) :
    ∃ s1 s2, st.execute_instruction (i1.parse_instruction w1 pc1) = some s1 ∧
      s1.effectiveAddr (i2.parse_instruction w2 pc2) = A ∧
      s1.execute_instruction (i2.parse_instruction w2 pc2) = some s2 ∧
      s2.registers ((i2.parse_instruction w2 pc2).operands 1) =
        st.registers ((i1.parse_instruction w1 pc1).operands 1) ∧
      s2.registers ((i1.parse_instruction w1 pc1).operands 1) =
        st.registers ((i1.parse_instruction w1 pc1).operands 1) := by
  obtain ⟨-, hr1, -⟩ := wellFormedInstr_parse i1 w1 pc1
  obtain ⟨a0, a1⟩ := hr1 (by rw [hsw]; decide)
  obtain ⟨-, hr2, -⟩ := wellFormedInstr_parse i2 w2 pc2
  obtain ⟨b0, b1⟩ := hr2 (by rw [hlw]; decide)
  generalize i1.parse_instruction w1 pc1 = sw at *
  generalize i2.parse_instruction w2 pc2 = lw at *
  have e1 : st.execute_instruction sw
      = some (st.setMem A (st.registers (sw.operands 1))).incPc := by
    rw [execute_instruction_sw st sw hsw, execSw_eq st sw hsw a0 a1, hswA, if_pos hA]
  have e2 : (st.setMem A (st.registers (sw.operands 1))).incPc.effectiveAddr lw = A := hlwA
  have e3 : (st.setMem A (st.registers (sw.operands 1))).incPc.execute_instruction lw
      = some ((st.setMem A (st.registers (sw.operands 1))).incPc.setReg (lw.operands 1)
          ((st.setMem A (st.registers (sw.operands 1))).incPc.memory_arr A)).incPc := by
    rw [execute_instruction_lw _ lw hlw, execLw_eq _ lw hlw b0 b1, if_pos hd0, e2, if_pos hA]
  refine ⟨_, _, e1, e2, e3, ?_, ?_⟩
  · simp
  · have : ¬ (sw.operands 1 = lw.operands 1) := fun h => hds h.symm
    simp [this]

/-- Witness of C6: `sw $2, 0($1)` (word 0xA500) then `lw $3, 0($1)` (word 0x8580) with
register 1 holding 100 and register 2 holding 42. -/
theorem C6_store_load_round_trip_witness :
    ∃ s1 s2, regStoreLoad.execute_instruction (Instruction.init.parse_instruction 0xA500 0)
        = some s1 ∧
      s1.effectiveAddr (Instruction.init.parse_instruction 0x8580 1) = 100 ∧
      s1.execute_instruction (Instruction.init.parse_instruction 0x8580 1) = some s2 ∧
      s2.registers 3 = 42 ∧ s2.registers 2 = 42 :=
  C6_store_load_round_trip regStoreLoad Instruction.init Instruction.init 0xA500 0x8580 0 1 100
    rfl rfl (by decide) (by decide) (by decide) rfl rfl

/-- C7. jeq branch arithmetic: executing a decoded jeq has a result; if
`registers[regA] = registers[regB]` the new pc is `(pc + 1 + sign_extend(imm7, 7)) mod 2^16`,
where `sign_extend(imm7, 7)` is `imm7 - 128` for `imm7` in 64..127 and `imm7` below 64;
otherwise the new pc is `(pc + 1) mod 2^16`. Registers and memory are unchanged. -/
theorem C7_jeq_branch (s : E20) (i0 : Instruction) (w pc : Nat)
    (hop : (i0.parse_instruction w pc).opcode = 0b110) :
    ∃ s', s.execute_instruction (i0.parse_instruction w pc) = some s' ∧
      (s'.pc : Int) =
        (if s.registers ((i0.parse_instruction w pc).operands 0) =
            s.registers ((i0.parse_instruction w pc).operands 1) then
          ((s.pc : Int) + 1 +
            (if 64 ≤ (i0.parse_instruction w pc).operands 2
              then ((i0.parse_instruction w pc).operands 2 : Int) - 128
              else ((i0.parse_instruction w pc).operands 2 : Int))) % 65536
        else ((s.pc : Int) + 1) % 65536) ∧
      (i0.parse_instruction w pc).operands 2 = w % 128 ∧
      s'.registers = s.registers ∧ s'.memory_arr = s.memory_arr := by
  have hop' := hop
  rw [parse_opcode] at hop'
  have hp := parse_two i0 w pc (by simp [hop'])
  have h7 : (i0.parse_instruction w pc).operands 2 < 128 := by
    rw [hp]; exact extract_bits_lt w 0 7
  have himm : (i0.parse_instruction w pc).operands 2 = w % 128 := by
    rw [hp]; simp [extract_bits_eq]
  obtain ⟨-, hr, -⟩ := wellFormedInstr_parse i0 w pc
  obtain ⟨h0, h1⟩ := hr (by rw [hop]; decide)
  generalize i0.parse_instruction w pc = ci at *
  have hb := binary_to_int_seven (ci.operands 2) h7
  rw [execute_instruction_jeq s ci hop, execJeq_eq s ci hop h0 h1, hb]
  have hmod : ∀ x : Int, ((toU16 x : Nat) : Int) = x % 65536 := by
    intro x
    unfold toU16
    exact Int.toNat_of_nonneg (Int.emod_nonneg _ (by decide))
  by_cases hc : s.registers (ci.operands 0) = s.registers (ci.operands 1)
  · rw [if_pos hc, if_pos hc]
    exact ⟨_, rfl, hmod _, himm, rfl, rfl⟩
  · rw [if_neg hc, if_neg hc]
    exact ⟨_, rfl, by rw [incPc_pc]; exact hmod _, himm, rfl, rfl⟩

/-- Witness of C7 at `jeq $0, $0, -3` (word 0xC07D, `imm7 = 125`) with pc 10: the new pc
is 8. -/
theorem C7_jeq_branch_witness :
    (Instruction.init.parse_instruction 0xC07D 10).opcode = 0b110 ∧
    ∃ s', (E20.init.setPc 10).execute_instruction (Instruction.init.parse_instruction 0xC07D 10)
        = some s' ∧ (s'.pc : Int) = 8 := by
  obtain ⟨s', h1, h2, -⟩ := C7_jeq_branch (E20.init.setPc 10) Instruction.init 0xC07D 10 rfl
  exact ⟨rfl, s', h1, h2⟩

/-! ## Claims C8 to C10 -/

/-- C8. End-to-end self-jump: from a new `E20` whose memory holds 0x4000 (`j 0`) at
address 0 and 0 elsewhere, the first decode is halt-flagged, so `run` terminates (for
every bound of at least one iteration) having executed no instruction, with pc 0,
all registers 0 and the memory as loaded. -/
theorem C8_self_jump_halts (fuel : Nat) :
    selfJumpProgram.pc = 0 ∧ (∀ r, selfJumpProgram.registers r = 0) ∧
    selfJumpProgram.memory_arr 0 = 0x4000 ∧
    (∀ a, a ≠ 0 → selfJumpProgram.memory_arr a = 0) ∧
    ∃ s', selfJumpProgram.run (fuel + 1) = .halted s' 0 ∧
      s'.pc = 0 ∧ (∀ r, s'.registers r = 0) ∧
      s'.memory_arr = selfJumpProgram.memory_arr := by
  refine ⟨rfl, fun _ => rfl, rfl, ?_, _, rfl, rfl, fun _ => rfl, rfl⟩
  intro a ha
  cases a with
  | zero => exact absurd rfl ha
  | succ n => rfl

/-- One cycle of `addiJumpProgram` from a state of its loop executes an instruction and
stays in the loop: neither decode is halt-flagged. -/
theorem addiJumpLoop_cycle (s : E20) (h : AddiJumpLoop s) :
    ∃ s', s.cycle = .next s' ∧ AddiJumpLoop s' := by
  obtain ⟨hm, hh, hpc⟩ := h
  rcases hpc with hpc | hpc
  · have hw : s.readMem s.pc = some 0x2485 := by
      rw [hpc]; simp [readMem, MEM_SIZE, hm]; rfl
    have hp := parse_two s.instruction.reinitialize 0x2485 s.pc (Or.inl rfl)
    have hop : (s.instruction.reinitialize.parse_instruction 0x2485 s.pc).opcode = 0b001 := by
      rw [hp]; rfl
    obtain ⟨-, hr, -⟩ := wellFormedInstr_parse s.instruction.reinitialize 0x2485 s.pc
    obtain ⟨h0, h1⟩ := hr (by rw [hop]; decide)
    have hhalt : (s.instruction.reinitialize.parse_instruction 0x2485 s.pc).isHalt = false := by
      rw [hp]; exact hh
    unfold cycle
    rw [hw]
    simp only [hhalt, Bool.false_eq_true, if_false]
    rw [execute_instruction_addi _ _ hop, execAddi_eq _ _ hop h0 h1]
    refine ⟨_, rfl, hm, hhalt, Or.inr ?_⟩
    simp [hpc, toU16]
  · have hw : s.readMem s.pc = some 0x4000 := by
      rw [hpc]; simp [readMem, MEM_SIZE, hm]; rfl
    obtain ⟨hop, himm, hhalt⟩ :=
      parse_jump s.instruction.reinitialize 0x4000 s.pc (Or.inl rfl)
    have hop' : (s.instruction.reinitialize.parse_instruction 0x4000 s.pc).opcode = 0b010 := by
      rw [hop]; rfl
    have hhalt' : (s.instruction.reinitialize.parse_instruction 0x4000 s.pc).isHalt = false := by
      rw [hhalt, hpc]
      show (s.instruction.isHalt || decide (extract_bits 0x4000 0 13 = 1)) = false
      rw [hh]; rfl
    unfold cycle
    rw [hw]
    simp only [hhalt', Bool.false_eq_true, if_false]
    rw [execute_instruction_j _ _ hop', execJ_eq _ _ hop']
    refine ⟨_, rfl, hm, hhalt', Or.inl ?_⟩
    show (s.instruction.reinitialize.parse_instruction 0x4000 s.pc).operands 0 = 0
    rw [himm]; rfl

/-- From a state of the loop of `addiJumpProgram`, `run` is still running after any
number of iterations. -/
theorem addiJumpLoop_running (fuel : Nat) :
    ∀ (n : Nat) (s : E20), AddiJumpLoop s → runFrom fuel n s = .running := by
  induction fuel with
  | zero => intro n s _; rfl
  | succ k ih =>
    intro n s h
    obtain ⟨s', hc, h'⟩ := addiJumpLoop_cycle s h
    simp only [runFrom, hc]
    exact ih (n + 1) s' h'

theorem addiJumpLoop_start : AddiJumpLoop addiJumpProgram :=
  ⟨rfl, rfl, Or.inl rfl⟩

/-- C9, as stated, fails: in `addiJumpProgram` the first cycle executes the addi and
gives register 1 = 5 and pc = 1, but the decode of memory[1] = 0x4000 (`j 0`) at pc 1 is
not halt-flagged (its immediate is 0, not 1), and `run` has not terminated after two
iterations. -/
theorem C9_addi_jump_counterexample :
    addiJumpProgram.memory_arr 0 = 0x2485 ∧ addiJumpProgram.memory_arr 1 = 0x4000 ∧
    (∃ s1, addiJumpProgram.cycle = .next s1 ∧ s1.registers 1 = 5 ∧ s1.pc = 1 ∧
      (s1.instruction.reinitialize.parse_instruction (s1.memory_arr s1.pc) s1.pc).isHalt
        = false) ∧
    addiJumpProgram.run 2 = .running :=
  ⟨rfl, rfl, ⟨_, rfl, rfl, rfl, rfl⟩, rfl⟩

/-- C9, amended. In `addiJumpProgram` (`addi $1, $1, 5` at 0, `j 0` at 1) the first
cycle gives register 1 = 5 and pc = 1; the decode of memory[1] at pc 1 is not
halt-flagged, the jump is executed and sets pc to 0 with register 1 still 5; `run` is
still running after any number of iterations. With `j 1` at address 1
(`addiSelfJumpProgram`) the second decode is halt-flagged and `run` terminates after one
executed instruction with pc = 1 and register 1 = 5. -/
theorem C9_addi_jump (fuel : Nat) :
    (∃ s1 s2, addiJumpProgram.cycle = .next s1 ∧ s1.registers 1 = 5 ∧ s1.pc = 1 ∧
      (s1.instruction.reinitialize.parse_instruction (s1.memory_arr s1.pc) s1.pc).isHalt
        = false ∧
      s1.cycle = .next s2 ∧ s2.pc = 0 ∧ s2.registers 1 = 5) ∧
    addiJumpProgram.run fuel = .running ∧
    (∃ s1 s', addiSelfJumpProgram.cycle = .next s1 ∧ s1.registers 1 = 5 ∧ s1.pc = 1 ∧
      (s1.instruction.reinitialize.parse_instruction (s1.memory_arr s1.pc) s1.pc).isHalt
        = true ∧
      addiSelfJumpProgram.run (fuel + 2) = .halted s' 1 ∧ s'.pc = 1 ∧ s'.registers 1 = 5) :=
  ⟨⟨_, _, rfl, rfl, rfl, rfl, rfl, rfl, rfl⟩,
    addiJumpLoop_running fuel 0 addiJumpProgram addiJumpLoop_start,
    ⟨_, _, rfl, rfl, rfl, rfl, rfl, rfl, rfl⟩⟩

/-- C10. Bit-field reconstruction: for a 16-bit word `w` and fields `(pos, width)` of
width at least 1 that lie inside bits 0..15, are pairwise non-overlapping and together
cover bits 0..15, the OR of the fields read with `extract_bits` and shifted back to
their positions is `w`. -/
theorem C10_fields_reconstruct (w : Nat) (fields : List (Nat × Nat)) (hw : w < 65536)
    (_hwidth : ∀ f ∈ fields, 1 ≤ f.2)
    (_hinside : ∀ f ∈ fields, f.1 + f.2 ≤ 16)
    (_hdisjoint : fields.Pairwise (fun f g => f.1 + f.2 ≤ g.1 ∨ g.1 + g.2 ≤ f.1))
    (hcover : ∀ b, b < 16 → ∃ f ∈ fields, f.1 ≤ b ∧ b < f.1 + f.2) :
    orFields w fields = w := by
  apply Nat.eq_of_testBit_eq
  intro b
  unfold orFields
  rw [testBit_foldl_fields]
  by_cases hb : b < 16
  · simp [hcover b hb]
  · have hlt : w < 2 ^ b :=
      lt_of_lt_of_le hw (by
        calc 65536 = 2 ^ 16 := by norm_num
          _ ≤ 2 ^ b := Nat.pow_le_pow_right (by decide) (by omega))
    simp [Nat.testBit_lt_two_pow hlt]

/-- Witness of C10: the word 0xABCD and the five fields of the opcode-000 format. -/
theorem C10_fields_reconstruct_witness :
    orFields 0xABCD [(13, 3), (10, 3), (7, 3), (4, 3), (0, 4)] = 0xABCD :=
  C10_fields_reconstruct 0xABCD [(13, 3), (10, 3), (7, 3), (4, 3), (0, 4)] (by decide)
    (by decide) (by decide) (by decide) (by decide)

/-! ## Claims C11 to C13 -/

/-- The test `val & (1 << k)` of `binary_to_int` reads bit `k` of `val`. -/
theorem and_one_shiftLeft_ne_zero (val k : Nat) :
    val &&& (1 <<< k) ≠ 0 ↔ val.testBit k = true := by
  rw [Nat.one_shiftLeft]
  constructor
  · intro h
    by_contra hb
    apply h
    apply Nat.eq_of_testBit_eq
    intro i
    rw [Nat.testBit_and, Nat.testBit_two_pow, Nat.zero_testBit]
    by_cases hi : k = i
    · subst hi; simp [hb]
    · simp [hi]
  · intro hb h
    have := congrArg (fun x => x.testBit k) h
    simp [Nat.testBit_and, Nat.testBit_two_pow, hb] at this

/-- Below `2^(k+1)`, bit `k` is set exactly from `2^k` on. -/
theorem testBit_top_iff (val k : Nat) (h : val < 2 ^ (k + 1)) :
    val.testBit k = true ↔ 2 ^ k ≤ val := by
  constructor
  · exact fun hb => Nat.testBit_implies_ge hb
  · intro hle
    rw [Nat.testBit_to_div_mod]
    have hpos : 0 < 2 ^ k := Nat.two_pow_pos k
    have h1 : val / 2 ^ k < 2 := by
      rw [Nat.div_lt_iff_lt_mul hpos]
      rw [Nat.pow_succ] at h
      omega
    have h2 : 1 ≤ val / 2 ^ k := by
      rw [Nat.le_div_iff_mul_le hpos]
      omega
    simp
    omega

/-- The value of `binary_to_int` on a `n`-bit value, for `1 ≤ n ≤ 15`. -/
theorem binary_to_int_eq (val n : Nat) (h1 : 1 ≤ n) (h15 : n ≤ 15) (hval : val < 2 ^ n) :
    binary_to_int val n = if 2 ^ (n - 1) ≤ val then (val : Int) - 2 ^ n else (val : Int) := by
  obtain ⟨k, rfl⟩ : ∃ k, n = k + 1 := ⟨n - 1, by omega⟩
  have hk : 2 ^ k ≤ 2 ^ 14 := Nat.pow_le_pow_right (by decide) (by omega)
  have hp : 2 ^ (k + 1) = 2 * 2 ^ k := by rw [Nat.pow_succ]; omega
  have hbit := (and_one_shiftLeft_ne_zero val k).trans (testBit_top_iff val k hval)
  unfold binary_to_int
  simp only [Nat.add_sub_cancel]
  have hcast : ((1 <<< (k + 1) : Nat) : Int) = 2 * (2 ^ k : Nat) := by
    rw [Nat.one_shiftLeft, hp]; push_cast; ring
  have hcast2 : ((2 : Int) ^ (k + 1)) = 2 * ((2 ^ k : Nat) : Int) := by
    push_cast; ring
  rw [hcast, hcast2]
  norm_num at hk
  by_cases hc : 2 ^ k ≤ val
  · rw [if_pos (hbit.2 hc), if_pos hc]
    unfold toS16
    omega
  · rw [if_neg (fun h => hc (hbit.1 h)), if_neg hc]
    unfold toS16
    omega

/-- C11. Sign-extension round trip: for `1 ≤ n ≤ 15`, every integer `v` of the `n`-bit
two's-complement range is returned exactly by `binary_to_int` from its encoding
`v mod 2^n`; for every `val < 2^n` the result is `val - 2^n` when bit `n-1` of `val` is
set and `val` otherwise, and it lies in the `signed short` range. -/
theorem C11_sign_extension_round_trip (n : Nat) (h1 : 1 ≤ n) (h15 : n ≤ 15) :
    (∀ v : Int, -(2 ^ (n - 1)) ≤ v → v ≤ 2 ^ (n - 1) - 1 →
      binary_to_int (v % 2 ^ n).toNat n = v) ∧
    (∀ val : Nat, val < 2 ^ n →
      binary_to_int val n = if val.testBit (n - 1) then (val : Int) - 2 ^ n else (val : Int)) ∧
    (∀ val : Nat, val < 2 ^ n →
      -32768 ≤ binary_to_int val n ∧ binary_to_int val n ≤ 32767) := by
  obtain ⟨k, rfl⟩ : ∃ k, n = k + 1 := ⟨n - 1, by omega⟩
  simp only [Nat.add_sub_cancel]
  have hk : 2 ^ k ≤ 2 ^ 14 := Nat.pow_le_pow_right (by decide) (by omega)
  norm_num at hk
  have hkpos : 0 < 2 ^ k := Nat.two_pow_pos k
  have hp : 2 ^ (k + 1) = 2 * 2 ^ k := by rw [Nat.pow_succ]; omega
  have hpi : ((2 : Int) ^ (k + 1)) = 2 * ((2 ^ k : Nat) : Int) := by push_cast; ring
  have hki : ((2 : Int) ^ k) = ((2 ^ k : Nat) : Int) := by push_cast; ring
  refine ⟨?_, ?_, ?_⟩
  · intro v hlo hhi
    rw [hki] at hlo hhi
    rw [hpi]
    by_cases hv : 0 ≤ v
    · have hmod : v % (2 * ((2 ^ k : Nat) : Int)) = v :=
        Int.emod_eq_of_lt hv (by omega)
      rw [hmod]
      have hval : v.toNat < 2 ^ (k + 1) := by omega
      rw [binary_to_int_eq v.toNat (k + 1) h1 h15 hval]
      simp only [Nat.add_sub_cancel]
      rw [if_neg (by omega)]
      omega
    · have hmod : v % (2 * ((2 ^ k : Nat) : Int)) = v + 2 * ((2 ^ k : Nat) : Int) := by
        rw [← Int.add_mul_emod_self_left v (2 * ((2 ^ k : Nat) : Int)) 1, Int.mul_one]
        exact Int.emod_eq_of_lt (by omega) (by omega)
      rw [hmod]
      have hval : (v + 2 * ((2 ^ k : Nat) : Int)).toNat < 2 ^ (k + 1) := by omega
      rw [binary_to_int_eq _ (k + 1) h1 h15 hval]
      simp only [Nat.add_sub_cancel]
      rw [if_pos (by omega), hpi]
      omega
  · intro val hval
    rw [binary_to_int_eq val (k + 1) h1 h15 hval]
    simp only [Nat.add_sub_cancel]
    by_cases hc : 2 ^ k ≤ val
    · rw [if_pos hc, if_pos ((testBit_top_iff val k hval).2 hc)]
    · rw [if_neg hc, if_neg (by
        intro hb
        exact hc ((testBit_top_iff val k hval).1 hb))]
  · intro val hval
    rw [binary_to_int_eq val (k + 1) h1 h15 hval]
    simp only [Nat.add_sub_cancel]
    rw [hpi]
    split_ifs <;> omega

/-- Witness of C11 at `n = 7`: the value -3 is encoded as 125 and decoded back to -3. -/
theorem C11_sign_extension_round_trip_witness :
    (1 ≤ 7 ∧ 7 ≤ 15) ∧ ((-3 : Int) % 2 ^ 7).toNat = 125 ∧
    binary_to_int ((-3 : Int) % 2 ^ 7).toNat 7 = -3 :=
  ⟨by decide, by decide,
    (C11_sign_extension_round_trip 7 (by decide) (by decide)).1 (-3) (by decide) (by decide)⟩

/-- The conversion to `unsigned short`, read as an integer, is the remainder modulo `2^16`. -/
theorem toU16_cast (x : Int) : ((toU16 x : Nat) : Int) = x % 65536 := by
  unfold toU16
  exact Int.toNat_of_nonneg (Int.emod_nonneg _ (by decide))

/-- The conversion to `unsigned short` of a natural number is its remainder modulo `2^16`. -/
theorem toU16_natCast (n : Nat) : toU16 (n : Int) = n % 65536 := by
  have h := toU16_cast (n : Int)
  omega

theorem toU16_lt (x : Int) : toU16 x < 65536 := by
  have h := toU16_cast x
  omega

/-- C12. Register-register ALU semantics: a decoded opcode-000 instruction with
`regDst ≠ 0` and sub-opcode 0000, 0001, 0010, 0011 or 0100 has a result in which
`registers[regDst]` is `(a + b) mod 2^16`, `(a - b) mod 2^16`, `a OR b`, `a AND b`, or 1
if `a < b` else 0, where `a = registers[regSrcA]` and `b = registers[regSrcB]` are read
before the write; every other register and all of memory are unchanged. -/
theorem C12_alu_semantics (s : E20) (i0 : Instruction) (w pc : Nat)
    (hop : (i0.parse_instruction w pc).opcode = 0b000)
    (hd : (i0.parse_instruction w pc).operands 2 ≠ 0)
    (hsub : (i0.parse_instruction w pc).operands 3 ≤ 0b0100) :
    ∃ s', s.execute_instruction (i0.parse_instruction w pc) = some s' ∧
      ((i0.parse_instruction w pc).operands 3 = 0b0000 →
        s'.registers ((i0.parse_instruction w pc).operands 2) =
          (s.registers ((i0.parse_instruction w pc).operands 0) +
            s.registers ((i0.parse_instruction w pc).operands 1)) % 65536) ∧
      ((i0.parse_instruction w pc).operands 3 = 0b0001 →
        (s'.registers ((i0.parse_instruction w pc).operands 2) : Int) =
          ((s.registers ((i0.parse_instruction w pc).operands 0) : Int) -
            (s.registers ((i0.parse_instruction w pc).operands 1) : Int)) % 65536) ∧
      ((i0.parse_instruction w pc).operands 3 = 0b0010 →
        s'.registers ((i0.parse_instruction w pc).operands 2) =
          s.registers ((i0.parse_instruction w pc).operands 0) |||
            s.registers ((i0.parse_instruction w pc).operands 1)) ∧
      ((i0.parse_instruction w pc).operands 3 = 0b0011 →
        s'.registers ((i0.parse_instruction w pc).operands 2) =
          s.registers ((i0.parse_instruction w pc).operands 0) &&&
            s.registers ((i0.parse_instruction w pc).operands 1)) ∧
      ((i0.parse_instruction w pc).operands 3 = 0b0100 →
        s'.registers ((i0.parse_instruction w pc).operands 2) =
          if s.registers ((i0.parse_instruction w pc).operands 0) <
              s.registers ((i0.parse_instruction w pc).operands 1) then 1 else 0) ∧
      (∀ r, r ≠ (i0.parse_instruction w pc).operands 2 → s'.registers r = s.registers r) ∧
      s'.memory_arr = s.memory_arr := by
  obtain ⟨-, hr, hr2⟩ := wellFormedInstr_parse i0 w pc
  obtain ⟨h0, h1⟩ := hr (by rw [hop]; decide)
  have h2 := hr2 hop
  generalize i0.parse_instruction w pc = ci at *
  rw [execute_instruction_000 s ci hop, exec000_eq s ci hop h0]
  simp only [aluBlock_eq s _ h0 h1 h2, if_pos hd]
  obtain ⟨k, hk⟩ : ∃ k, ci.operands 3 = k := ⟨_, rfl⟩
  rw [hk] at hsub ⊢
  interval_cases k
  · refine ⟨_, rfl, ?_, ?_, ?_, ?_, ?_, ?_, rfl⟩ <;> intro h <;> first
      | (exfalso; revert h; decide)
      | skip
    · simp only [incPc_registers, setReg_registers, if_true]
      rw [← toU16_natCast]; push_cast; rfl
    · intro hne; simp [hne]
  · refine ⟨_, rfl, ?_, ?_, ?_, ?_, ?_, ?_, rfl⟩ <;> intro h <;> first
      | (exfalso; revert h; decide)
      | skip
    · simp only [incPc_registers, setReg_registers, if_true]
      exact toU16_cast _
    · intro hne; simp [hne]
  · refine ⟨_, rfl, ?_, ?_, ?_, ?_, ?_, ?_, rfl⟩ <;> intro h <;> first
      | (exfalso; revert h; decide)
      | skip
    · simp only [incPc_registers, setReg_registers, if_true]
    · intro hne; simp [hne]
  · refine ⟨_, rfl, ?_, ?_, ?_, ?_, ?_, ?_, rfl⟩ <;> intro h <;> first
      | (exfalso; revert h; decide)
      | skip
    · simp only [incPc_registers, setReg_registers, if_true]
    · intro hne; simp [hne]
  · refine ⟨_, rfl, ?_, ?_, ?_, ?_, ?_, ?_, rfl⟩ <;> intro h <;> first
      | (exfalso; revert h; decide)
      | skip
    · simp only [incPc_registers, setReg_registers, if_true]
    · intro hne; simp [hne]

/-- Witness of C12 at `sub $3, $1, $2` (word 0x0531) with register 1 holding 100 and
register 2 holding 42: register 3 becomes 58. -/
theorem C12_alu_semantics_witness :
    (Instruction.init.parse_instruction 0x0531 0).opcode = 0b000 ∧
    (Instruction.init.parse_instruction 0x0531 0).operands 2 ≠ 0 ∧
    (Instruction.init.parse_instruction 0x0531 0).operands 3 ≤ 0b0100 ∧
    ∃ s', regStoreLoad.execute_instruction (Instruction.init.parse_instruction 0x0531 0)
        = some s' ∧ (s'.registers 3 : Int) = 58 := by
  obtain ⟨s', h1, -, h3, -⟩ :=
    C12_alu_semantics regStoreLoad Instruction.init 0x0531 0 rfl (by decide) (by decide)
  exact ⟨rfl, by decide, by decide, s', h1, h3 rfl⟩

/-- C13. addi semantics: a decoded addi with `regDst ≠ 0` has a result in which
`registers[regDst]` is `(registers[regSrc] + sign_extend(imm7, 7)) mod 2^16`, where
`sign_extend(imm7, 7)` is `imm7 - 128` for `imm7` in 64..127 and `imm7` below 64, and
`imm7 = w mod 128`; every other register and all of memory are unchanged. -/
theorem C13_addi_semantics (s : E20) (i0 : Instruction) (w pc : Nat)
    (hop : (i0.parse_instruction w pc).opcode = 0b001)
    (hd : (i0.parse_instruction w pc).operands 1 ≠ 0) :
    ∃ s', s.execute_instruction (i0.parse_instruction w pc) = some s' ∧
      (s'.registers ((i0.parse_instruction w pc).operands 1) : Int) =
        ((s.registers ((i0.parse_instruction w pc).operands 0) : Int) +
          (if 64 ≤ (i0.parse_instruction w pc).operands 2
            then ((i0.parse_instruction w pc).operands 2 : Int) - 128
            else ((i0.parse_instruction w pc).operands 2 : Int))) % 65536 ∧
      (i0.parse_instruction w pc).operands 2 = w % 128 ∧
      (∀ r, r ≠ (i0.parse_instruction w pc).operands 1 → s'.registers r = s.registers r) ∧
      s'.memory_arr = s.memory_arr := by
  have hop' := hop
  rw [parse_opcode] at hop'
  have hp := parse_two i0 w pc (by simp [hop'])
  have h7 : (i0.parse_instruction w pc).operands 2 < 128 := by
    rw [hp]; exact extract_bits_lt w 0 7
  have himm : (i0.parse_instruction w pc).operands 2 = w % 128 := by
    rw [hp]; simp [extract_bits_eq]
  obtain ⟨-, hr, -⟩ := wellFormedInstr_parse i0 w pc
  obtain ⟨h0, h1⟩ := hr (by rw [hop]; decide)
  generalize i0.parse_instruction w pc = ci at *
  have hb := binary_to_int_seven (ci.operands 2) h7
  rw [execute_instruction_addi s ci hop, execAddi_eq s ci hop h0 h1, if_pos hd, hb]
  refine ⟨_, rfl, ?_, himm, ?_, rfl⟩
  · simp only [incPc_registers, setReg_registers, if_true]
    exact toU16_cast _
  · intro r hne
    simp [hne]

/-- Witness of C13 at `addi $2, $1, -3` (word 0x257D, `imm7 = 125`) with register 1
holding 5: register 2 becomes 2. -/
theorem C13_addi_semantics_witness :
    (Instruction.init.parse_instruction 0x257D 0).opcode = 0b001 ∧
    (Instruction.init.parse_instruction 0x257D 0).operands 1 ≠ 0 ∧
    ∃ s', regOneFive.execute_instruction (Instruction.init.parse_instruction 0x257D 0)
        = some s' ∧ (s'.registers 2 : Int) = 2 := by
  obtain ⟨s', h1, h2, -⟩ :=
    C13_addi_semantics regOneFive Instruction.init 0x257D 0 rfl (by decide)
  exact ⟨rfl, by decide, s', h1, h2⟩

/-! ## Claims C14 to C17 -/

/-- C14. Absolute control transfers: a decoded jal has a result with `registers[7]`
equal to `(old pc + 1) mod 2^16` and pc equal to the 13-bit immediate `w mod 8192`; a
decoded j has a result with pc equal to `w mod 8192`; a decoded jr (opcode 000,
sub-opcode 1000) has a result with pc equal to `registers[regSrcA]`. In each case every
register other than the one named and all of memory are unchanged. -/
theorem C14_absolute_transfers (s : E20) (i0 : Instruction) (w pc : Nat) :
    ((i0.parse_instruction w pc).opcode = 0b011 →
      ∃ s', s.execute_instruction (i0.parse_instruction w pc) = some s' ∧
        s'.registers 7 = (s.pc + 1) % 65536 ∧ s'.pc = w % 8192 ∧
        (∀ r, r ≠ 7 → s'.registers r = s.registers r) ∧ s'.memory_arr = s.memory_arr) ∧
    ((i0.parse_instruction w pc).opcode = 0b010 →
      ∃ s', s.execute_instruction (i0.parse_instruction w pc) = some s' ∧
        s'.pc = w % 8192 ∧ s'.registers = s.registers ∧ s'.memory_arr = s.memory_arr) ∧
    ((i0.parse_instruction w pc).opcode = 0b000 ∧
        (i0.parse_instruction w pc).operands 3 = 0b1000 →
      ∃ s', s.execute_instruction (i0.parse_instruction w pc) = some s' ∧
        s'.pc = s.registers ((i0.parse_instruction w pc).operands 0) ∧
        s'.registers = s.registers ∧ s'.memory_arr = s.memory_arr) := by
  have himm13 : extract_bits w 0 13 = w % 8192 := by
    rw [extract_bits_eq]; norm_num
  refine ⟨?_, ?_, ?_⟩
  · intro hop
    have hop' := hop
    rw [parse_opcode] at hop'
    obtain ⟨-, himm, -⟩ := parse_jump i0 w pc (Or.inr hop')
    rw [himm13] at himm
    generalize i0.parse_instruction w pc = ci at *
    rw [execute_instruction_jal s ci hop, execJal_eq s ci hop]
    refine ⟨_, rfl, ?_, himm, ?_, rfl⟩
    · simp only [setPc_registers, setReg_registers, if_true]
      rw [← toU16_natCast]; push_cast; rfl
    · intro r hne
      simp [hne]
  · intro hop
    have hop' := hop
    rw [parse_opcode] at hop'
    obtain ⟨-, himm, -⟩ := parse_jump i0 w pc (Or.inl hop')
    rw [himm13] at himm
    generalize i0.parse_instruction w pc = ci at *
    rw [execute_instruction_j s ci hop, execJ_eq s ci hop]
    exact ⟨_, rfl, himm, rfl, rfl⟩
  · rintro ⟨hop, hsub⟩
    obtain ⟨-, hr, -⟩ := wellFormedInstr_parse i0 w pc
    obtain ⟨h0, -⟩ := hr (by rw [hop]; decide)
    generalize i0.parse_instruction w pc = ci at *
    rw [execute_instruction_000 s ci hop, exec000_eq s ci hop h0, hsub]
    exact ⟨_, rfl, rfl, rfl, rfl⟩

/-- Witness of C14 at `jal 5` (word 0x6005) from the state with pc 10: register 7
becomes 11 and pc becomes 5. -/
theorem C14_absolute_transfers_witness :
    (Instruction.init.parse_instruction 0x6005 10).opcode = 0b011 ∧
    ∃ s', (E20.init.setPc 10).execute_instruction (Instruction.init.parse_instruction 0x6005 10)
        = some s' ∧ s'.registers 7 = 11 ∧ s'.pc = 5 := by
  obtain ⟨s', h1, h2, h3, -⟩ :=
    (C14_absolute_transfers (E20.init.setPc 10) Instruction.init 0x6005 10).1 rfl
  exact ⟨rfl, s', h1, h2, h3⟩

/-- C15. Decoder field table: for a 16-bit word `w`, decoding into a new `Instruction`
sets `opcode` to bits 13..15 of `w`; for opcode 000 the four operands are bits 10..12,
7..9, 4..6 and 0..3; for opcodes 001, 100, 101, 110, 111 operands 0, 1, 2 are bits
10..12, 7..9 and 0..6; for opcodes 010 and 011 operand 0 is bits 0..12. -/
theorem C15_decoder_field_table (w pc : Nat) (hw : w < 65536) :
    (Instruction.init.parse_instruction w pc).opcode = w / 8192 ∧
    (w / 8192 = 0b000 →
      (Instruction.init.parse_instruction w pc).operands 0 = w / 1024 % 8 ∧
      (Instruction.init.parse_instruction w pc).operands 1 = w / 128 % 8 ∧
      (Instruction.init.parse_instruction w pc).operands 2 = w / 16 % 8 ∧
      (Instruction.init.parse_instruction w pc).operands 3 = w % 16) ∧
    (w / 8192 = 0b001 ∨ w / 8192 = 0b100 ∨ w / 8192 = 0b101 ∨ w / 8192 = 0b110
        ∨ w / 8192 = 0b111 →
      (Instruction.init.parse_instruction w pc).operands 0 = w / 1024 % 8 ∧
      (Instruction.init.parse_instruction w pc).operands 1 = w / 128 % 8 ∧
      (Instruction.init.parse_instruction w pc).operands 2 = w % 128) ∧
    (w / 8192 = 0b010 ∨ w / 8192 = 0b011 →
      (Instruction.init.parse_instruction w pc).operands 0 = w % 8192) := by
  have hopc : extract_bits w 13 3 = w / 8192 := by
    rw [extract_bits_eq]; norm_num; omega
  have e10 : extract_bits w 10 3 = w / 1024 % 8 := by rw [extract_bits_eq]; norm_num
  have e7 : extract_bits w 7 3 = w / 128 % 8 := by rw [extract_bits_eq]; norm_num
  have e4 : extract_bits w 4 3 = w / 16 % 8 := by rw [extract_bits_eq]; norm_num
  have e0 : extract_bits w 0 4 = w % 16 := by rw [extract_bits_eq]; norm_num
  have e07 : extract_bits w 0 7 = w % 128 := by rw [extract_bits_eq]; norm_num
  have e013 : extract_bits w 0 13 = w % 8192 := by rw [extract_bits_eq]; norm_num
  refine ⟨by rw [parse_opcode, hopc], ?_, ?_, ?_⟩
  · intro h
    rw [parse_three Instruction.init w pc (by rw [hopc, h])]
    simp [e10, e7, e4, e0]
  · intro h
    rw [parse_two Instruction.init w pc (by rw [hopc]; exact h)]
    simp [e10, e7, e07]
  · intro h
    rw [(parse_jump Instruction.init w pc (by rw [hopc]; exact h)).2.1, e013]

/-- Witness of C15 at the word 0x0531 (`sub $3, $1, $2`): opcode 0 and operands 1, 2, 3, 1. -/
theorem C15_decoder_field_table_witness :
    0x0531 < 65536 ∧ (Instruction.init.parse_instruction 0x0531 0).opcode = 0x0531 / 8192 ∧
    (Instruction.init.parse_instruction 0x0531 0).operands 0 = 0x0531 / 1024 % 8 ∧
    (Instruction.init.parse_instruction 0x0531 0).operands 3 = 0x0531 % 16 :=
  ⟨by decide, (C15_decoder_field_table 0x0531 0 (by decide)).1,
    ((C15_decoder_field_table 0x0531 0 (by decide)).2.1 (by decide)).1,
    ((C15_decoder_field_table 0x0531 0 (by decide)).2.1 (by decide)).2.2.2⟩

set_option maxHeartbeats 800000 in
/-- Frame of `execute_instruction` on a well-formed instruction: when it has no result,
what it leaves of the memory, and where it leaves the pc after an instruction that is
not a control transfer. -/
theorem execute_instruction_frame (s : E20) (ci : Instruction) (hwf : WellFormedInstr ci) :
    (s.execute_instruction ci = none ↔ MemAccessOutOfBounds s ci) ∧
    ∀ s', s.execute_instruction ci = some s' →
      (ci.opcode ≠ 0b101 → s'.memory_arr = s.memory_arr) ∧
      (ci.opcode = 0b101 → s.effectiveAddr ci < MEM_SIZE ∧
        s'.memory_arr (s.effectiveAddr ci) = s.registers (ci.operands 1) ∧
        ∀ a, a ≠ s.effectiveAddr ci → s'.memory_arr a = s.memory_arr a) ∧
      (ci.opcode = 0b001 ∨ ci.opcode = 0b100 ∨ ci.opcode = 0b101 ∨ ci.opcode = 0b111 ∨
          (ci.opcode = 0b000 ∧ ci.operands 3 ≤ 0b0100) →
        s'.pc = toU16 ((s.pc : Int) + 1)) ∧
      s'.instruction = s.instruction := by
  obtain ⟨hk, hr, hr2⟩ := hwf
  obtain ⟨k, hk'⟩ : ∃ k, ci.opcode = k := ⟨_, rfl⟩
  rw [hk'] at hk
  unfold MemAccessOutOfBounds
  interval_cases k
  · -- opcode 000
    obtain ⟨h1, h2⟩ := hr (by rw [hk']; decide)
    have h3 := hr2 hk'
    rw [execute_instruction_000 s ci hk', exec000_eq s ci hk' h1]
    simp only [aluBlock_eq s _ h1 h2 h3, hk']
    refine ⟨by split_ifs <;> simp, ?_⟩
    intro s' hs'
    split_ifs at hs' <;> cases hs' <;>
      refine ⟨fun _ => rfl, fun h => absurd h (by decide), fun hseq => ?_, rfl⟩ <;>
      first
        | rfl
        | (have hsub : ci.operands 3 ≤ 4 := by simpa using hseq
           omega)
  · -- opcode 001, addi
    obtain ⟨h1, h2⟩ := hr (by rw [hk']; decide)
    rw [execute_instruction_addi s ci hk', execAddi_eq s ci hk' h1 h2]
    refine ⟨by simp [hk'], ?_⟩
    intro s' hs'
    cases hs'
    exact ⟨fun _ => rfl, fun h => absurd (hk'.symm.trans h) (by decide), fun _ => rfl, rfl⟩
  · -- opcode 010, j
    rw [execute_instruction_j s ci hk', execJ_eq s ci hk']
    refine ⟨by simp [hk'], ?_⟩
    intro s' hs'
    cases hs'
    refine ⟨fun _ => rfl, fun h => absurd (hk'.symm.trans h) (by decide), fun hseq => ?_, rfl⟩
    rw [hk'] at hseq
    simp at hseq
  · -- opcode 011, jal
    rw [execute_instruction_jal s ci hk', execJal_eq s ci hk']
    refine ⟨by simp [hk'], ?_⟩
    intro s' hs'
    cases hs'
    refine ⟨fun _ => rfl, fun h => absurd (hk'.symm.trans h) (by decide), fun hseq => ?_, rfl⟩
    rw [hk'] at hseq
    simp at hseq
  · -- opcode 100, lw
    obtain ⟨h1, h2⟩ := hr (by rw [hk']; decide)
    rw [execute_instruction_lw s ci hk', execLw_eq s ci hk' h1 h2]
    constructor
    · by_cases hd : ci.operands 1 = 0
      · simp [hd, hk']
      · by_cases ha : s.effectiveAddr ci < MEM_SIZE
        · simp [hd, ha, hk']
        · simp [hd, ha, hk', Nat.le_of_not_lt ha]
    · intro s' hs'
      refine ⟨fun _ => ?_, fun h => absurd (hk'.symm.trans h) (by decide), fun _ => ?_, ?_⟩ <;>
        (split_ifs at hs' <;> cases hs' <;> rfl)
  · -- opcode 101, sw
    obtain ⟨h1, h2⟩ := hr (by rw [hk']; decide)
    rw [execute_instruction_sw s ci hk', execSw_eq s ci hk' h1 h2]
    constructor
    · by_cases ha : s.effectiveAddr ci < MEM_SIZE
      · simp [ha, hk']
      · simp [ha, hk', Nat.le_of_not_lt ha]
    · intro s' hs'
      split_ifs at hs' with ha
      cases hs'
      refine ⟨fun h => absurd hk' h, fun _ => ⟨ha, by simp, ?_⟩, fun _ => rfl, rfl⟩
      intro a hne
      simp [hne]
  · -- opcode 110, jeq
    obtain ⟨h1, h2⟩ := hr (by rw [hk']; decide)
    rw [execute_instruction_jeq s ci hk', execJeq_eq s ci hk' h1 h2]
    refine ⟨by split_ifs <;> simp [hk'], ?_⟩
    intro s' hs'
    refine ⟨fun _ => ?_, fun h => absurd (hk'.symm.trans h) (by decide), fun hseq => ?_, ?_⟩
    · split_ifs at hs' <;> cases hs' <;> rfl
    · rw [hk'] at hseq
      simp at hseq
    · split_ifs at hs' <;> cases hs' <;> rfl
  · -- opcode 111, slti
    obtain ⟨h1, h2⟩ := hr (by rw [hk']; decide)
    rw [execute_instruction_slti s ci hk', execSlti_eq s ci hk' h1 h2]
    refine ⟨by simp [hk'], ?_⟩
    intro s' hs'
    cases hs'
    exact ⟨fun _ => rfl, fun h => absurd (hk'.symm.trans h) (by decide), fun _ => rfl, rfl⟩

/-- Default pc advance in every defined execution: executing a decoded add, sub, or, and,
slt, slti, lw, sw or addi, with any register fields (`regDst = 0` included), gives only
states whose pc is `(pc + 1) mod 2^16`. The execution has a result exactly when its lw
or sw access, if any, is inside `memory_arr`. -/
theorem pc_advance_of_result (s : E20) (i0 : Instruction) (w pc : Nat)
    (hseq : (i0.parse_instruction w pc).opcode = 0b001 ∨
      (i0.parse_instruction w pc).opcode = 0b100 ∨
      (i0.parse_instruction w pc).opcode = 0b101 ∨
      (i0.parse_instruction w pc).opcode = 0b111 ∨
      ((i0.parse_instruction w pc).opcode = 0b000 ∧
        (i0.parse_instruction w pc).operands 3 ≤ 0b0100)) :
    (∀ s', s.execute_instruction (i0.parse_instruction w pc) = some s' →
      s'.pc = (s.pc + 1) % 65536) ∧
    (s.execute_instruction (i0.parse_instruction w pc) = none ↔
      MemAccessOutOfBounds s (i0.parse_instruction w pc)) := by
  obtain ⟨hnone, hframe⟩ :=
    execute_instruction_frame s _ (wellFormedInstr_parse i0 w pc)
  refine ⟨?_, hnone⟩
  intro s' hs'
  rw [(hframe s' hs').2.2.1 hseq, ← toU16_natCast]
  push_cast
  rfl

/-- Example for `pc_advance_of_result`: `add $0, $0, $1` (word 0x0080, `regDst = 0`)
from pc 0: the new pc is 1. -/
theorem pc_advance_of_result_example :
    ((Instruction.init.parse_instruction 0x0080 0).opcode = 0b000 ∧
      (Instruction.init.parse_instruction 0x0080 0).operands 3 ≤ 0b0100) ∧
    ∃ s', regOneFive.execute_instruction (Instruction.init.parse_instruction 0x0080 0)
        = some s' ∧ s'.pc = 1 :=
  ⟨⟨rfl, by decide⟩, _, rfl,
    (pc_advance_of_result regOneFive Instruction.init 0x0080 0
      (Or.inr (Or.inr (Or.inr (Or.inr ⟨rfl, by decide⟩))))).1 _ rfl⟩

/-- C16 at a failing input. The state after the first cycle of `farPcStoreProgram` has
pc 1 and `registers[1] = 8206`; the instruction decoded at its pc is the sw
`sw $1, 0($1)`, whose effective address 8206 is `MEM_SIZE + 14`, outside `memory_arr`.
`execute_instruction` has no defined result, so nothing gives pc = 2 after it, and `run`
has no defined result either. -/
theorem C16_pc_advance_store_outside :
    ∃ s1, farPcStoreProgram.cycle = .next s1 ∧ s1.pc = 1 ∧ s1.registers 1 = 8206 ∧
      (s1.instruction.reinitialize.parse_instruction (s1.memory_arr s1.pc) s1.pc).opcode
        = 0b101 ∧
      s1.effectiveAddr (s1.instruction.reinitialize.parse_instruction (s1.memory_arr s1.pc) s1.pc)
        = MEM_SIZE + 14 ∧
      s1.execute_instruction
        (s1.instruction.reinitialize.parse_instruction (s1.memory_arr s1.pc) s1.pc) = none ∧
      farPcStoreProgram.run 2 = .fault :=
  ⟨_, rfl, rfl, rfl, rfl, rfl, rfl, rfl⟩

/-- C17. Memory is written only by sw: executing a decoded instruction whose opcode is
not 101 gives only states with the memory unchanged; executing a decoded sw gives only
states whose memory differs from the old one at most at the effective address, which is
then inside `memory_arr` and holds `registers[regSrc]`. The execution has a result
exactly when its lw or sw access, if any, is inside `memory_arr`. -/
theorem C17_memory_written_only_by_sw (s : E20) (i0 : Instruction) (w pc : Nat) :
    (∀ s', s.execute_instruction (i0.parse_instruction w pc) = some s' →
      ((i0.parse_instruction w pc).opcode ≠ 0b101 → s'.memory_arr = s.memory_arr) ∧
      ((i0.parse_instruction w pc).opcode = 0b101 →
        s.effectiveAddr (i0.parse_instruction w pc) < MEM_SIZE ∧
        s'.memory_arr (s.effectiveAddr (i0.parse_instruction w pc)) =
          s.registers ((i0.parse_instruction w pc).operands 1) ∧
        ∀ a, a ≠ s.effectiveAddr (i0.parse_instruction w pc) →
          s'.memory_arr a = s.memory_arr a)) ∧
    (s.execute_instruction (i0.parse_instruction w pc) = none ↔
      MemAccessOutOfBounds s (i0.parse_instruction w pc)) := by
  obtain ⟨hnone, hframe⟩ :=
    execute_instruction_frame s _ (wellFormedInstr_parse i0 w pc)
  exact ⟨fun s' hs' => ⟨(hframe s' hs').1, (hframe s' hs').2.1⟩, hnone⟩

/-- Witness of C17 at `sw $2, 0($1)` (word 0xA500) with register 1 holding 100 and
register 2 holding 42: cell 100 receives 42 and cell 99 is unchanged. -/
theorem C17_memory_written_only_by_sw_witness :
    (Instruction.init.parse_instruction 0xA500 0).opcode = 0b101 ∧
    regStoreLoad.effectiveAddr (Instruction.init.parse_instruction 0xA500 0) = 100 ∧
    ∃ s', regStoreLoad.execute_instruction (Instruction.init.parse_instruction 0xA500 0)
        = some s' ∧ s'.memory_arr 100 = 42 ∧ s'.memory_arr 99 = regStoreLoad.memory_arr 99 :=
  ⟨rfl, rfl, _, rfl,
    (((C17_memory_written_only_by_sw regStoreLoad Instruction.init 0xA500 0).1 _ rfl).2 rfl).2.1,
    (((C17_memory_written_only_by_sw regStoreLoad Instruction.init 0xA500 0).1 _ rfl).2 rfl).2.2
      99 (by decide)⟩

/-! ## Claims C18 to C20 -/

/-- The halt flag after `parse_instruction`: the old flag, raised when the word has
opcode 010 or 011 and its 13-bit immediate equals the pc. -/
theorem parse_isHalt (i0 : Instruction) (w pc : Nat) :
    (i0.parse_instruction w pc).isHalt =
      (i0.isHalt || (decide (extract_bits w 13 3 = 0b010 ∨ extract_bits w 13 3 = 0b011) &&
        decide (extract_bits w 0 13 = pc))) := by
  have hlt := extract_bits_lt_eight w 13
  obtain ⟨k, hk⟩ : ∃ k, extract_bits w 13 3 = k := ⟨_, rfl⟩
  rw [hk] at hlt
  interval_cases k
  · rw [parse_three i0 w pc hk]; simp [hk]
  · rw [parse_two i0 w pc (by simp [hk])]; simp [hk]
  · rw [(parse_jump i0 w pc (Or.inl hk)).2.2]; simp [hk]
  · rw [(parse_jump i0 w pc (Or.inr hk)).2.2]; simp [hk]
  · rw [parse_two i0 w pc (by simp [hk])]; simp [hk]
  · rw [parse_two i0 w pc (by simp [hk])]; simp [hk]
  · rw [parse_two i0 w pc (by simp [hk])]; simp [hk]
  · rw [parse_two i0 w pc (by simp [hk])]; simp [hk]

/-- The `Instruction` object of the loop of `run` after the decode of a cycle. -/
theorem reinitialize_isHalt (i0 : Instruction) : i0.reinitialize.isHalt = i0.isHalt := rfl

namespace E20

/-- A cycle that leaves through `break`: the fetch was inside `memory_arr`, the decoded
instruction is halt-flagged, and only the `Instruction` object of the state changed. -/
theorem cycle_eq_halt (s s' : E20) (h : s.cycle = .halt s') :
    s.pc < MEM_SIZE ∧
    (s.instruction.reinitialize.parse_instruction (s.memory_arr s.pc) s.pc).isHalt = true ∧
    s' = { s with instruction :=
      s.instruction.reinitialize.parse_instruction (s.memory_arr s.pc) s.pc } := by
  unfold cycle at h
  by_cases hpc : s.pc < MEM_SIZE
  · have hm : s.readMem s.pc = some (s.memory_arr s.pc) := by simp [readMem, hpc]
    rw [hm] at h
    simp only at h
    split_ifs at h with hh
    · cases h
      exact ⟨hpc, hh, rfl⟩
    · split at h <;> cases h
  · have hm : s.readMem s.pc = none := by simp [readMem, hpc]
    rw [hm] at h
    cases h

/-- A cycle that executes an instruction: the fetch was inside `memory_arr`, the decoded
instruction is not halt-flagged, and the new state is the result of executing it. -/
theorem cycle_eq_next (s s' : E20) (h : s.cycle = .next s') :
    s.pc < MEM_SIZE ∧
    (s.instruction.reinitialize.parse_instruction (s.memory_arr s.pc) s.pc).isHalt = false ∧
    E20.execute_instruction
      { s with instruction :=
        s.instruction.reinitialize.parse_instruction (s.memory_arr s.pc) s.pc }
      (s.instruction.reinitialize.parse_instruction (s.memory_arr s.pc) s.pc) = some s' := by
  unfold cycle at h
  by_cases hpc : s.pc < MEM_SIZE
  · have hm : s.readMem s.pc = some (s.memory_arr s.pc) := by simp [readMem, hpc]
    rw [hm] at h
    simp only at h
    split_ifs at h with hh
    refine ⟨hpc, by simpa using hh, ?_⟩
    split at h
    · cases h
    · cases h
      assumption
  · have hm : s.readMem s.pc = none := by simp [readMem, hpc]
    rw [hm] at h
    cases h

/-- After a cycle that executed an instruction the `Instruction` object is not
halt-flagged. -/
theorem cycle_next_isHalt (s s' : E20) (h : s.cycle = .next s') :
    s'.instruction.isHalt = false := by
  obtain ⟨-, hh, he⟩ := cycle_eq_next s s' h
  have hf := (execute_instruction_frame _ _
    (wellFormedInstr_parse s.instruction.reinitialize (s.memory_arr s.pc) s.pc)).2 s' he
  rw [hf.2.2.2]
  exact hh

/-- A cycle on an opcode-000 word whose sub-opcode no block handles: the instruction is
executed, no block acts, and only the `Instruction` object of the state changes. -/
theorem cycle_undefined_subop (s : E20) (hpc : s.pc < MEM_SIZE)
    (hh : s.instruction.isHalt = false)
    (hop : s.memory_arr s.pc / 8192 % 8 = 0b000)
    (hsub : s.memory_arr s.pc % 16 ≠ 0b0000 ∧ s.memory_arr s.pc % 16 ≠ 0b0001 ∧
      s.memory_arr s.pc % 16 ≠ 0b0010 ∧ s.memory_arr s.pc % 16 ≠ 0b0011 ∧
      s.memory_arr s.pc % 16 ≠ 0b0100 ∧ s.memory_arr s.pc % 16 ≠ 0b1000) :
    s.cycle = .next { s with instruction :=
      s.instruction.reinitialize.parse_instruction (s.memory_arr s.pc) s.pc } ∧
    (s.instruction.reinitialize.parse_instruction (s.memory_arr s.pc) s.pc).isHalt = false := by
  have hopc : extract_bits (s.memory_arr s.pc) 13 3 = 0b000 := by
    rw [extract_bits_eq]; norm_num; exact hop
  have e0 : extract_bits (s.memory_arr s.pc) 0 4 = s.memory_arr s.pc % 16 := by
    rw [extract_bits_eq]; norm_num
  have hp := parse_three s.instruction.reinitialize (s.memory_arr s.pc) s.pc hopc
  have hhalt :
      (s.instruction.reinitialize.parse_instruction (s.memory_arr s.pc) s.pc).isHalt = false := by
    rw [hp]; exact hh
  have hopcode :
      (s.instruction.reinitialize.parse_instruction (s.memory_arr s.pc) s.pc).opcode = 0b000 := by
    rw [hp]
  have hop3 :
      (s.instruction.reinitialize.parse_instruction (s.memory_arr s.pc) s.pc).operands 3
        = s.memory_arr s.pc % 16 := by
    rw [hp, ← e0]; rfl
  obtain ⟨-, hr, -⟩ :=
    wellFormedInstr_parse s.instruction.reinitialize (s.memory_arr s.pc) s.pc
  obtain ⟨h0, -⟩ := hr (by rw [hopcode]; decide)
  refine ⟨?_, hhalt⟩
  have hm : s.readMem s.pc = some (s.memory_arr s.pc) := by simp [readMem, hpc]
  unfold cycle
  rw [hm]
  simp only [hhalt, Bool.false_eq_true, if_false]
  rw [execute_instruction_000 _ _ hopcode, exec000_eq _ _ hopcode h0, hop3,
    if_neg hsub.1, if_neg hsub.2.1, if_neg hsub.2.2.1, if_neg hsub.2.2.2.1,
    if_neg hsub.2.2.2.2.1, if_neg hsub.2.2.2.2.2]

/-- From a state whose pc points at an opcode-000 word with an unhandled sub-opcode, every
number of cycles leads to a state with the same pc, registers and memory. -/
theorem cycles_undefined_subop (k : Nat) :
    ∀ s : E20, s.pc < MEM_SIZE → s.instruction.isHalt = false →
      s.memory_arr s.pc / 8192 % 8 = 0b000 →
      (s.memory_arr s.pc % 16 ≠ 0b0000 ∧ s.memory_arr s.pc % 16 ≠ 0b0001 ∧
        s.memory_arr s.pc % 16 ≠ 0b0010 ∧ s.memory_arr s.pc % 16 ≠ 0b0011 ∧
        s.memory_arr s.pc % 16 ≠ 0b0100 ∧ s.memory_arr s.pc % 16 ≠ 0b1000) →
      ∃ t, s.cycles k = some t ∧ t.pc = s.pc ∧ t.registers = s.registers ∧
        t.memory_arr = s.memory_arr := by
  induction k with
  | zero => intro s _ _ _ _; exact ⟨s, rfl, rfl, rfl, rfl⟩
  | succ k ih =>
    intro s hpc hh hop hsub
    obtain ⟨hc, hhalt⟩ := cycle_undefined_subop s hpc hh hop hsub
    obtain ⟨t, ht, h1, h2, h3⟩ :=
      ih { s with instruction :=
        s.instruction.reinitialize.parse_instruction (s.memory_arr s.pc) s.pc }
        hpc hhalt hop hsub
    refine ⟨t, ?_, h1, h2, h3⟩
    simp only [cycles, hc]
    exact ht

/-- From a state whose pc points at an opcode-000 word with an unhandled sub-opcode, `run`
is still running after any number of iterations. -/
theorem runFrom_undefined_subop (fuel : Nat) :
    ∀ (n : Nat) (s : E20), s.pc < MEM_SIZE → s.instruction.isHalt = false →
      s.memory_arr s.pc / 8192 % 8 = 0b000 →
      (s.memory_arr s.pc % 16 ≠ 0b0000 ∧ s.memory_arr s.pc % 16 ≠ 0b0001 ∧
        s.memory_arr s.pc % 16 ≠ 0b0010 ∧ s.memory_arr s.pc % 16 ≠ 0b0011 ∧
        s.memory_arr s.pc % 16 ≠ 0b0100 ∧ s.memory_arr s.pc % 16 ≠ 0b1000) →
      runFrom fuel n s = .running := by
  induction fuel with
  | zero => intro n s _ _ _ _; rfl
  | succ k ih =>
    intro n s hpc hh hop hsub
    obtain ⟨hc, hhalt⟩ := cycle_undefined_subop s hpc hh hop hsub
    simp only [runFrom, hc]
    exact ih (n + 1) { s with instruction :=
      s.instruction.reinitialize.parse_instruction (s.memory_arr s.pc) s.pc }
      hpc hhalt hop hsub

end E20

/-- C18. Undefined sub-opcode stalls: in a state whose pc is inside the memory, whose
`Instruction` object is not halt-flagged (as at the start of every cycle of `run`) and
where memory[pc] has opcode 000 and a sub-opcode outside 0000, 0001, 0010, 0011, 0100,
1000, one cycle of the loop decodes, does not halt, executes, and leaves pc, registers
and memory unchanged; so does any number of cycles, and `run` is still running after
any number of iterations. -/
theorem C18_undefined_subop_stalls (s : E20) (hpc : s.pc < MEM_SIZE)
    (hh : s.instruction.isHalt = false)
    (hop : s.memory_arr s.pc / 8192 % 8 = 0b000)
    (hsub : s.memory_arr s.pc % 16 ≠ 0b0000 ∧ s.memory_arr s.pc % 16 ≠ 0b0001 ∧
      s.memory_arr s.pc % 16 ≠ 0b0010 ∧ s.memory_arr s.pc % 16 ≠ 0b0011 ∧
      s.memory_arr s.pc % 16 ≠ 0b0100 ∧ s.memory_arr s.pc % 16 ≠ 0b1000) :
    (∃ s', s.cycle = .next s' ∧ s'.pc = s.pc ∧ s'.registers = s.registers ∧
      s'.memory_arr = s.memory_arr) ∧
    (∀ k, ∃ t, s.cycles k = some t ∧ t.pc = s.pc ∧ t.registers = s.registers ∧
      t.memory_arr = s.memory_arr) ∧
    (∀ fuel, s.run fuel = .running) :=
  ⟨⟨_, (cycle_undefined_subop s hpc hh hop hsub).1, rfl, rfl, rfl⟩,
    fun k => cycles_undefined_subop k s hpc hh hop hsub,
    fun fuel => runFrom_undefined_subop fuel 0 s hpc hh hop hsub⟩

/-- Witness of C18 at `undefinedSubopProgram` (word 0x0005 at address 0, pc 0). -/
theorem C18_undefined_subop_stalls_witness :
    undefinedSubopProgram.pc < MEM_SIZE ∧ undefinedSubopProgram.instruction.isHalt = false ∧
    undefinedSubopProgram.memory_arr undefinedSubopProgram.pc = 0x0005 ∧
    (∃ s', undefinedSubopProgram.cycle = .next s' ∧ s'.pc = 0) ∧
    undefinedSubopProgram.run 1000 = .running := by
  have h := C18_undefined_subop_stalls undefinedSubopProgram (by decide) rfl (by decide)
    (by decide)
  obtain ⟨s', h1, h2, -⟩ := h.1
  exact ⟨by decide, rfl, rfl, ⟨s', h1, h2⟩, h.2.2 1000⟩

/-- Decoding after `reinitialize` differs from decoding into a new `Instruction` only in
the halt flag, which keeps the value it had before `reinitialize` unless the decode
raises it. -/
theorem reinitialize_parse (i0 : Instruction) (w pc : Nat) :
    (i0.reinitialize.parse_instruction w pc).opcode
      = (Instruction.init.parse_instruction w pc).opcode ∧
    (i0.reinitialize.parse_instruction w pc).operands
      = (Instruction.init.parse_instruction w pc).operands ∧
    (i0.reinitialize.parse_instruction w pc).isHalt
      = (i0.isHalt || (Instruction.init.parse_instruction w pc).isHalt) := by
  refine ⟨by rw [parse_opcode, parse_opcode], ?_, ?_⟩
  · have hlt := extract_bits_lt_eight w 13
    obtain ⟨k, hk⟩ : ∃ k, extract_bits w 13 3 = k := ⟨_, rfl⟩
    rw [hk] at hlt
    interval_cases k <;>
      simp [parse_instruction, parseJump, parseTwoReg, parseThreeReg, parseOpcode, hk,
        setOperand, reinitialize, Instruction.init] <;>
      split_ifs <;> rfl
  · rw [parse_isHalt, parse_isHalt, reinitialize_isHalt]
    simp [Instruction.init]

/-- C19 at a failing input. `haltedInstruction` is the object left by the halting decode
of `j 0`; after `reinitialize` and the decode of 0x0080 (`add $0, $0, $1`) at pc 0 its
opcode and operands are those of a decode into a new `Instruction`, but `isHalt` is
still true, where the new `Instruction` has `isHalt` false. -/
theorem C19_stale_halt_flag :
    haltedInstruction.isHalt = true ∧
    (haltedInstruction.reinitialize.parse_instruction 0x0080 0).opcode
      = (Instruction.init.parse_instruction 0x0080 0).opcode ∧
    (∀ j, (haltedInstruction.reinitialize.parse_instruction 0x0080 0).operands j
      = (Instruction.init.parse_instruction 0x0080 0).operands j) ∧
    (haltedInstruction.reinitialize.parse_instruction 0x0080 0).isHalt = true ∧
    (Instruction.init.parse_instruction 0x0080 0).isHalt = false := by
  refine ⟨rfl, rfl, ?_, rfl, rfl⟩
  intro j
  rw [(reinitialize_parse haltedInstruction 0x0080 0).2.1]

namespace E20

/-- A terminating `run` that was entered with an `Instruction` object that is not
halt-flagged: some number `k` of cycles executed an instruction each, and the next one
left through `break`. -/
theorem runFrom_eq_halted (fuel : Nat) :
    ∀ (n m : Nat) (s s' : E20), s.instruction.isHalt = false →
      runFrom fuel n s = .halted s' m →
      ∃ k t, m = n + k ∧ s.cycles k = some t ∧ t.instruction.isHalt = false ∧
        t.cycle = .halt s' := by
  induction fuel with
  | zero => intro n m s s' _ h; cases h
  | succ f ih =>
    intro n m s s' hh h
    unfold runFrom at h
    cases hc : s.cycle with
    | halt u =>
      rw [hc] at h
      cases h
      exact ⟨0, s, rfl, rfl, hh, hc⟩
    | fault => rw [hc] at h; cases h
    | next u =>
      rw [hc] at h
      obtain ⟨k, t, hm, hk, ht, hhalt⟩ := ih (n + 1) m u s' (cycle_next_isHalt s u hc) h
      refine ⟨k + 1, t, by omega, ?_, ht, hhalt⟩
      simp only [cycles, hc]
      exact hk

end E20

/-- The halting state of a `run` entered with a clear halt flag: when `run`, entered with an
`Instruction` object that is not halt-flagged (as in a new `E20`), terminates in state
`s'` after `m` executed instructions, the final pc is below 8192, the word memory[pc] of
the final state has opcode 010 or 011 and its 13-bit immediate equals pc, and pc,
registers and memory of `s'` are those of the state `t` reached by the `m` executed
instructions: the halting decode changed none of them. -/
theorem halting_state_of_clear_flag (fuel m : Nat) (s s' : E20) (hh : s.instruction.isHalt = false)
    (hrun : s.run fuel = .halted s' m) :
    s'.pc < 8192 ∧
    (s'.memory_arr s'.pc / 8192 % 8 = 0b010 ∨ s'.memory_arr s'.pc / 8192 % 8 = 0b011) ∧
    s'.memory_arr s'.pc % 8192 = s'.pc ∧
    ∃ t, s.cycles m = some t ∧ t.cycle = .halt s' ∧
      s'.pc = t.pc ∧ s'.registers = t.registers ∧ s'.memory_arr = t.memory_arr := by
  obtain ⟨k, t, hm, hk, ht, hhalt⟩ := runFrom_eq_halted fuel 0 m s s' hh hrun
  have hmk : m = k := by omega
  subst hmk
  obtain ⟨hpc, hflag, hs'⟩ := cycle_eq_halt t s' hhalt
  rw [parse_isHalt, reinitialize_isHalt, ht] at hflag
  simp only [Bool.false_or, Bool.and_eq_true, decide_eq_true_eq] at hflag
  obtain ⟨hopc, himm⟩ := hflag
  rw [extract_bits_eq] at hopc himm
  norm_num at hopc himm
  subst hs'
  refine ⟨hpc, hopc, himm, t, hk, hhalt, rfl, rfl, rfl⟩

/-- Example for `halting_state_of_clear_flag`: `addiSelfJumpProgram`, where `run`
terminates after one executed instruction at pc 1, where memory holds 0x4001 (`j 1`). -/
theorem halting_state_of_clear_flag_example :
    addiSelfJumpProgram.instruction.isHalt = false ∧
    ∃ s', addiSelfJumpProgram.run 2 = .halted s' 1 ∧ s'.pc < 8192 ∧
      s'.memory_arr s'.pc % 8192 = s'.pc ∧ s'.pc = 1 ∧ s'.memory_arr 1 = 0x4001 :=
  ⟨rfl, _, rfl, (halting_state_of_clear_flag 2 1 addiSelfJumpProgram _ rfl rfl).1,
    (halting_state_of_clear_flag 2 1 addiSelfJumpProgram _ rfl rfl).2.2.1, rfl, rfl⟩

/-- C20 at a failing input. `run` on `selfJumpProgram` halts and leaves the `Instruction`
object halt-flagged; `reloadedAfterHalt` is that object with the memory filled again.
`reinitialize` does not clear the flag, so `run` from `reloadedAfterHalt` terminates in
its first cycle, having executed nothing, at pc 0 where memory holds 0x2485
(`addi $1, $1, 5`): the word has opcode 001, not 010 or 011, and its 13-bit immediate
is 1157, not the pc. -/
theorem C20_stale_flag_halts_on_non_jump :
    (∃ s0, selfJumpProgram.run 1 = .halted s0 0 ∧ s0.instruction.isHalt = true ∧
      s0.pc = reloadedAfterHalt.pc ∧ s0.registers = reloadedAfterHalt.registers ∧
      s0.instruction = reloadedAfterHalt.instruction) ∧
    ∃ s', reloadedAfterHalt.run 1 = .halted s' 0 ∧ s'.pc = 0 ∧
      s'.memory_arr s'.pc = 0x2485 ∧
      s'.memory_arr s'.pc / 8192 % 8 = 0b001 ∧
      s'.memory_arr s'.pc % 8192 = 1157 :=
  ⟨⟨_, rfl, rfl, rfl, rfl, rfl⟩, _, rfl, rfl, rfl, rfl, rfl⟩

end E20Sim
